import Mathlib

/-!
# Verification of the Kosmos ai_scientist core

Shallow embedding of the world-model / analysis / planner / scientist-loop
core of the repository (files under kosmos/ai_scientist/), together with
theorems settling the specified properties.

Modelling conventions:
* Python floats are modelled by the rationals; the source never produces
  NaN or infinities in the modelled code paths, and all branching is on
  ordinary order comparisons, so the total order on the rationals is a
  faithful model.
* Python dictionaries with string keys are modelled by association lists;
  a defaultdict is an association list read through a default value.
* The externally-random executor (Executor.run_campaign draws simulated
  metrics from a random generator) and the LLM boundary are modelled by
  explicit function parameters, as the specification treats both as
  opaque collaborators; the loop and planner control flow is embedded
  literally from the source.
* A raised Python exception is modelled by an Except / Option error value
  that the embedding propagates exactly where the source has no handler.
-/

/-- Python dictionary values (the Any of Dict[str, Any]) as a structured
value tree: strings, numbers, None, lists and string-keyed dictionaries. -/
inductive PyVal where
  | pystr : String → PyVal
  | pynum : ℚ → PyVal
  | pynone : PyVal
  | pylist : List PyVal → PyVal
  | pydict : List (String × PyVal) → PyVal

/-- A Python Dict[str, Any]: association list of string keys to values. -/
abbrev PyDict := List (String × PyVal)

/-- Configuration dataclass from kosmos/ai_scientist/data_structures.py. -/
structure Configuration where
  forward_config : PyDict
  recon_family : String
  recon_params : PyDict
  uq_scheme : String
  uq_params : PyDict
  train_config : PyDict


/-- Metrics dataclass from kosmos/ai_scientist/data_structures.py.
psnr, coverage and latency are required floats; calibration_error is
Optional[float]; other_metrics is Dict[str, float]. -/
structure Metrics where
  psnr : ℚ
  coverage : ℚ
  latency : ℚ
  calibration_error : Option ℚ := none
  other_metrics : List (String × ℚ) := []


/-- Artifacts dataclass from kosmos/ai_scientist/data_structures.py. -/
structure Artifacts where
  checkpoint : String
  uq_params : PyDict
  train_log : String
  eval_samples : List String
  fig_scripts : List String


/-- ExperimentRecord dataclass from kosmos/ai_scientist/data_structures.py.
The source generates a uuid in __post_init__ when id is empty; records in
this development always carry an explicit id. -/
structure ExperimentRecord where
  id : String
  config : Configuration
  metrics : Metrics
  artifacts : Artifacts
  timestamp : String := ""


/-- WorldModel dataclass: the experiment list plus the defaultdict(list)
index structure, modelled as an association list from index name to the
list of (attribute value, record id) pairs appended so far. -/
structure WorldModel where
  experiments : List ExperimentRecord := []
  indices : List (String × List (String × String)) := []


/-- Read of a defaultdict(list) entry: missing keys read as the empty list. -/
def indexGet (ix : List (String × List (String × String))) (k : String) :
    List (String × String) :=
  (List.lookup k ix).getD []

/-- Append one pair to a defaultdict(list) bucket, creating the bucket on
first use exactly as defaultdict does. -/
def indexAppend (ix : List (String × List (String × String))) (k : String)
    (v : String × String) : List (String × List (String × String)) :=
  match ix with
  | [] => [(k, [v])]
  | (k2, vs) :: rest =>
      if k2 = k then (k2, vs ++ [v]) :: rest
      else (k2, vs) :: indexAppend rest k v

/-- Algorithm 2 (WORLD_MODEL_UPDATE) from kosmos/ai_scientist/world_model.py:
builds the new ExperimentRecord, appends it to the experiment list, and
appends a (tag, id) pair to the recon_family and uq_scheme index buckets.
The freshly drawn uuid4 is modelled by the explicit newId argument. -/
def WorldModelManager.update (world_model : WorldModel) (newId : String)
    (config : Configuration) (metrics : Metrics) (artifacts : Artifacts) :
    WorldModel :=
  let experiment : ExperimentRecord :=
    { id := newId, config := config, metrics := metrics, artifacts := artifacts }
  { experiments := world_model.experiments ++ [experiment]
    indices :=
      indexAppend
        (indexAppend world_model.indices "recon_family"
          (config.recon_family, experiment.id))
        "uq_scheme" (config.uq_scheme, experiment.id) }

/-- The numeric specialization of the dynamic attribute read
getattr(metrics, obj, 0) used by AnalysisAgent.compute_pareto_front, for
objective names that read as numbers on every Metrics value: the float
attributes psnr, coverage and latency, and any name that is not a
Metrics field, which reads as the integer 0 default. It is exact for the
psnr and coverage objectives that analysis_step passes. The full dynamic
semantics, in which the two further always-present attributes
calibration_error (a float or None) and other_metrics (a dict) are read
at their real values and a comparison on a non-number raises TypeError,
is getattrM / pyLt / compute_pareto_frontE below; the two embeddings
agree on the psnr/coverage objectives (compute_pareto_frontE_agrees). -/
def metricValue (m : Metrics) (obj : String) : ℚ :=
  if obj = "psnr" then m.psnr
  else if obj = "coverage" then m.coverage
  else if obj = "latency" then m.latency
  else 0

/-- The inner objective scan of AnalysisAgent.compute_pareto_front, embedded
literally: walks the objective list carrying the strictly_better_in_one
flag, returns false at the first objective where metrics2 falls below
metrics1 (the break in the source: dominates is false there), and otherwise
returns the accumulated flag. -/
def dominatesLoop (metrics1 metrics2 : Metrics) :
    List String → Bool → Bool
  | [], strictly_better_in_one => strictly_better_in_one
  | obj :: rest, strictly_better_in_one =>
      let val1 := metricValue metrics1 obj
      let val2 := metricValue metrics2 obj
      if val2 < val1 then false
      else dominatesLoop metrics1 metrics2 rest
        (strictly_better_in_one || decide (val1 < val2))

/-- metrics2 dominates metrics1 on the given objectives (the combined
dominates and strictly_better_in_one test of the source). -/
def dominatesB (metrics2 metrics1 : Metrics) (objectives : List String) :
    Bool :=
  dominatesLoop metrics1 metrics2 objectives false

/-- The per-record inner loop of compute_pareto_front: exp1 is dominated
when some other record of the input (compared by id, as the source skips
exp2 with exp1.id == exp2.id) dominates it. -/
def isDominated (experiments : List ExperimentRecord)
    (objectives : List String) (exp1 : ExperimentRecord) : Bool :=
  experiments.any fun exp2 =>
    !(exp1.id == exp2.id) && dominatesB exp2.metrics exp1.metrics objectives

/-- AnalysisAgent.compute_pareto_front from kosmos/ai_scientist/analysis.py:
collects the ids of the records not dominated by any other record of the
input into a set. The early return on an empty input coincides with the
fold over the empty list. -/
def AnalysisAgent.compute_pareto_front (experiments : List ExperimentRecord)
    (objectives : List String) : Finset String :=
  experiments.foldl
    (fun pareto_set exp1 =>
      if isDominated experiments objectives exp1 then pareto_set
      else insert exp1.id pareto_set)
    ∅

/-- Propositional form of domination: record b dominates record a on the
objective list when b is at least a everywhere and strictly above a
somewhere (values read through metricValue). -/
def Dominates (objectives : List String) (b a : ExperimentRecord) : Prop :=
  (∀ o ∈ objectives, metricValue a.metrics o ≤ metricValue b.metrics o) ∧
  (∃ o ∈ objectives, metricValue a.metrics o < metricValue b.metrics o)

instance (objectives : List String) (b a : ExperimentRecord) :
    Decidable (Dominates objectives b a) := by
  unfold Dominates; infer_instance

/-- The value of getattr(metrics, obj, 0) as a Python value: the float
attributes read as numbers, a set calibration_error reads as its float,
a None calibration_error reads as None, other_metrics reads as its dict,
and any name that is not a Metrics field falls to the integer 0 default. -/
inductive AttrVal where
  | num : ℚ → AttrVal
  | noneVal : AttrVal
  | dictVal : List (String × ℚ) → AttrVal

/-- The dynamic attribute read getattr(metrics, obj, 0) of the source in
full: every attribute of the Metrics dataclass is present, so getattr
returns its real value; only unknown names fall to the 0 default. -/
def getattrM (m : Metrics) (obj : String) : AttrVal :=
  if obj = "psnr" then .num m.psnr
  else if obj = "coverage" then .num m.coverage
  else if obj = "latency" then .num m.latency
  else if obj = "calibration_error" then
    (match m.calibration_error with
     | some q => .num q
     | none => .noneVal)
  else if obj = "other_metrics" then .dictVal m.other_metrics
  else .num 0

/-- The Python order comparison a < b on attribute values: defined
between numbers, a raised TypeError when either operand is None or a
dict (Python defines no ordering on those against any operand here). -/
def pyLt : AttrVal → AttrVal → Except String Bool
  | .num a, .num b => .ok (decide (a < b))
  | _, _ => .error "TypeError"

/-- The numeric reading of an attribute value: the attribute itself when
it is a number, and a junk 0 otherwise, never exposed under the numeric
hypotheses of the theorems below. -/
def attrQ (m : Metrics) (obj : String) : ℚ :=
  match getattrM m obj with
  | .num q => q
  | _ => 0

/-- The inner objective scan of compute_pareto_front under the full
dynamic semantics: each comparison either computes on numbers or raises
TypeError, which propagates (the source has no handler); the break at
val2 < val1 skips the remaining comparisons of the scan, and the second
comparison val2 > val1 runs only when the first was false, exactly as in
the source. -/
def dominatesLoopE (metrics1 metrics2 : Metrics) :
    List String → Bool → Except String Bool
  | [], strictly_better_in_one => .ok strictly_better_in_one
  | obj :: rest, strictly_better_in_one =>
      match pyLt (getattrM metrics2 obj) (getattrM metrics1 obj) with
      | .error e => .error e
      | .ok lt1 =>
          if lt1 then .ok false
          else
            match pyLt (getattrM metrics1 obj) (getattrM metrics2 obj) with
            | .error e => .error e
            | .ok gt1 =>
                dominatesLoopE metrics1 metrics2 rest
                  (strictly_better_in_one || gt1)

/-- The per-record inner loop of compute_pareto_front under the dynamic
semantics: scans the other records in input order, skipping equal ids,
breaking at the first dominator, propagating the first raised
TypeError. -/
def isDominatedE (experiments : List ExperimentRecord)
    (objectives : List String) (exp1 : ExperimentRecord) :
    Except String Bool :=
  match experiments with
  | [] => .ok false
  | exp2 :: rest =>
      if exp1.id == exp2.id then isDominatedE rest objectives exp1
      else
        match dominatesLoopE exp1.metrics exp2.metrics objectives false with
        | .error e => .error e
        | .ok d => if d then .ok true else isDominatedE rest objectives exp1

/-- The outer loop of compute_pareto_front under the dynamic semantics:
collects the ids of non-dominated records, propagating a raise. -/
def paretoGoE (experiments : List ExperimentRecord)
    (objectives : List String) :
    List ExperimentRecord → Finset String → Except String (Finset String)
  | [], pareto_set => .ok pareto_set
  | exp1 :: rest, pareto_set =>
      match isDominatedE experiments objectives exp1 with
      | .error e => .error e
      | .ok d =>
          if d then paretoGoE experiments objectives rest pareto_set
          else paretoGoE experiments objectives rest
            (insert exp1.id pareto_set)

/-- AnalysisAgent.compute_pareto_front with the dynamic getattr and
comparison semantics of the source embedded in full: the result is the
set of non-dominated ids, or the TypeError raised at the first
comparison of non-number attribute values. On the psnr/coverage
objectives that analysis_step passes, this agrees with the total
embedding AnalysisAgent.compute_pareto_front (proved below). -/
def AnalysisAgent.compute_pareto_frontE
    (experiments : List ExperimentRecord) (objectives : List String) :
    Except String (Finset String) :=
  paretoGoE experiments objectives experiments ∅

/-- The boolean domination test on the real attribute values, equal to
the combined dominates and strictly_better_in_one outcome of the inner
scan whenever all the attribute reads are numeric. -/
def attrDominatesB (objectives : List String) (b a : Metrics) : Bool :=
  (objectives.all fun o => decide (attrQ a o ≤ attrQ b o)) &&
  (objectives.any fun o => decide (attrQ a o < attrQ b o))

/-- The boolean form of the per-record scan on real attribute values. -/
def isDominatedA (experiments : List ExperimentRecord)
    (objectives : List String) (exp1 : ExperimentRecord) : Bool :=
  experiments.any fun exp2 =>
    !(exp1.id == exp2.id) &&
      attrDominatesB objectives exp2.metrics exp1.metrics

/-- Propositional domination on the real attribute values read by
getattr: record b is at least record a on every objective and strictly
above it on at least one. -/
def DominatesA (objectives : List String) (b a : ExperimentRecord) : Prop :=
  (∀ o ∈ objectives, attrQ a.metrics o ≤ attrQ b.metrics o) ∧
  (∃ o ∈ objectives, attrQ a.metrics o < attrQ b.metrics o)

/-- Result dictionary of AnalysisAgent.compute_calibration_stats; the
min_error key is absent (none) exactly when no record carries a
calibration error, matching the two return branches of the source. -/
structure CalibStats where
  mean_error : ℚ
  max_error : ℚ
  min_error : Option ℚ


/-- AnalysisAgent.compute_calibration_stats: statistics over the records
whose calibration_error is not None. -/
def AnalysisAgent.compute_calibration_stats
    (experiments : List ExperimentRecord) : CalibStats :=
  let calib_errors := experiments.filterMap fun exp => exp.metrics.calibration_error
  match calib_errors with
  | [] => { mean_error := 0, max_error := 0, min_error := none }
  | e :: rest =>
      { mean_error := (e :: rest).sum / (e :: rest).length
        max_error := rest.foldl max e
        min_error := some (rest.foldl min e) }

/-- Python max(iterable, key=f) keeps the first element attaining the
maximum: a later element replaces the current best only when its key is
strictly greater. This is the tie-break used by summarize_trends and
summarize_world_model. -/
def maxByPsnrAux (best : ExperimentRecord) :
    List ExperimentRecord → ExperimentRecord
  | [] => best
  | e :: rest =>
      maxByPsnrAux (if best.metrics.psnr < e.metrics.psnr then e else best) rest

/-- Decimal rendering of a rational, standing in for the Python f-string
float formatting of the source; the rendering detail is irrelevant to the
specified properties. -/
def fmtQ (q : ℚ) : String := toString q

/-- AnalysisAgent.summarize_trends from kosmos/ai_scientist/analysis.py:
natural-language digest of the Pareto subset of a stratum. -/
def AnalysisAgent.summarize_trends (experiments : List ExperimentRecord)
    (pareto_ids : Finset String) (calib_stats : CalibStats) : String :=
  let pareto_exps := experiments.filter fun e => e.id ∈ pareto_ids
  match pareto_exps with
  | [] => "No significant trends found."
  | p :: ps =>
      let avg_psnr := ((p :: ps).map fun e => e.metrics.psnr).sum /
        (p :: ps).length
      let best_config := maxByPsnrAux p ps
      let summary :=
        "Pareto frontier contains " ++ toString (p :: ps).length ++
        " configurations. " ++
        "Average PSNR: " ++ fmtQ avg_psnr ++ " dB. " ++
        "Best config uses " ++ best_config.config.recon_family ++ ", " ++
        "PSNR=" ++ fmtQ best_config.metrics.psnr ++ " dB. "
      if 0 < calib_stats.mean_error then
        summary ++ "Average calibration error: " ++
          fmtQ calib_stats.mean_error ++ "."
      else summary

/-- The stratum key of a record: the (recon_family, uq_scheme) pair. -/
def keyOf (e : ExperimentRecord) : String × String :=
  (e.config.recon_family, e.config.uq_scheme)

/-- One step of the defaultdict grouping of analysis_step: append the
record to the bucket of its key, creating the bucket at the end on first
use (defaultdict iteration order is key insertion order). -/
def addToStrata (strata : List ((String × String) × List ExperimentRecord))
    (k : String × String) (e : ExperimentRecord) :
    List ((String × String) × List ExperimentRecord) :=
  match strata with
  | [] => [(k, [e])]
  | (k2, es) :: rest =>
      if k2 = k then (k2, es ++ [e]) :: rest
      else (k2, es) :: addToStrata rest k e

/-- The strata grouping of analysis_step: records grouped by
(recon_family, uq_scheme), keys in first-occurrence order, records of a
stratum in input order. -/
def strataOf (exps : List ExperimentRecord) :
    List ((String × String) × List ExperimentRecord) :=
  exps.foldl (fun strata e => addToStrata strata (keyOf e) e) []

/-- Python str() of a pair of strings, as interpolated into the trend
prefix: a parenthesised, comma-separated, quoted pair. -/
def pyTupleStr (k : String × String) : String :=
  let q := String.singleton (Char.ofNat 39)
  "(" ++ q ++ k.1 ++ q ++ ", " ++ q ++ k.2 ++ q ++ ")"

/-- Algorithm 5 (ANALYSIS_STEP) from kosmos/ai_scientist/analysis.py:
group the records into strata, compute the per-stratum Pareto frontier
(objectives psnr and coverage) and calibration statistics, union the
frontiers, and collect one key-prefixed trend string per stratum. -/
def AnalysisAgent.analysis_step (world_model : WorldModel) :
    Finset String × List String :=
  let all_experiments := world_model.experiments
  let strata := strataOf all_experiments
  strata.foldl
    (fun acc stratum =>
      let pareto_ids :=
        AnalysisAgent.compute_pareto_front stratum.2 ["psnr", "coverage"]
      let calib_stats := AnalysisAgent.compute_calibration_stats stratum.2
      let trend_summary :=
        AnalysisAgent.summarize_trends stratum.2 pareto_ids calib_stats
      (acc.1 ∪ pareto_ids,
       acc.2 ++ ["[" ++ pyTupleStr stratum.1 ++ "] " ++ trend_summary]))
    (∅, [])

/-- The summary dictionary returned by Planner.summarize_world_model.
The two return branches of the source carry different key sets; a key
absent from a branch is modelled as none (reading it raises KeyError). -/
structure Summary where
  total_experiments : Nat
  best_psnr : ℚ
  best_config : Option String
  avg_psnr : Option ℚ
  recon_families : Option (List (String × Nat))
  uq_schemes : Option (List (String × Nat))
  frontiers : List String
  constraints : List (String × ℚ)
  underexplored : Option (List String)

/-- One step of a defaultdict(int) counter increment. -/
def incrCount (counts : List (String × Nat)) (k : String) :
    List (String × Nat) :=
  match counts with
  | [] => [(k, 1)]
  | (k2, n) :: rest =>
      if k2 = k then (k2, n + 1) :: rest
      else (k2, n) :: incrCount rest k

/-- Planner.summarize_world_model from kosmos/ai_scientist/planner.py.
The empty branch returns a dictionary without the avg_psnr, best_config,
recon_families and uq_schemes keys; the non-empty branch returns one
without the underexplored key. -/
def Planner.summarize_world_model (world_model : WorldModel) : Summary :=
  let experiments := world_model.experiments
  match experiments with
  | [] =>
      { total_experiments := 0
        best_psnr := 0
        best_config := none
        avg_psnr := none
        recon_families := none
        uq_schemes := none
        frontiers := []
        constraints := []
        underexplored := some ["all"] }
  | e :: rest =>
      let best_exp := maxByPsnrAux e rest
      let avg_psnr :=
        ((e :: rest).map fun x => x.metrics.psnr).sum / (e :: rest).length
      let recon_families :=
        (e :: rest).foldl (fun acc x => incrCount acc x.config.recon_family) []
      let uq_schemes :=
        (e :: rest).foldl (fun acc x => incrCount acc x.config.uq_scheme) []
      { total_experiments := (e :: rest).length
        best_psnr := best_exp.metrics.psnr
        best_config := some best_exp.config.recon_family
        avg_psnr := some avg_psnr
        recon_families := some recon_families
        uq_schemes := some uq_schemes
        frontiers := []
        constraints := [("max_latency", 100), ("min_coverage", 8/10)]
        underexplored := none }

/-- Planner.identify_underexplored_regions: one gap tag per reference
family and UQ scheme missing from the summary counts, with the
explore_variations sentinel when nothing is missing. -/
def Planner.identify_underexplored_regions (summary : Summary) :
    List String :=
  let all_families := ["CIAS-Core", "CIAS-Core-ELP", "Baseline-CNN"]
  let tested_families := (summary.recon_families.getD []).map Prod.fst
  let family_gaps :=
    (all_families.filter fun f => !(tested_families.contains f)).map
      fun f => "recon_family:" ++ f
  let all_uq := ["Conformal", "Ensemble", "None"]
  let tested_uq := (summary.uq_schemes.getD []).map Prod.fst
  let uq_gaps :=
    (all_uq.filter fun u => !(tested_uq.contains u)).map
      fun u => "uq_scheme:" ++ u
  let gaps := family_gaps ++ uq_gaps
  if gaps.isEmpty then ["explore_variations"] else gaps

/-- Planner.build_planner_prompt: the deterministic prompt template; the
dictionary interpolation detail of the f-string is abstracted to a plain
rendering, which no modelled behaviour depends on since the stubbed
generator ignores its prompt. -/
def Planner.build_planner_prompt (gaps : List String)
    (frontiers : List String) (constraints : List (String × ℚ))
    (budget : Nat) : String :=
  "You are an AI experiment designer for snapshot compressive imaging" ++
  " (SCI). Under-explored regions: " ++ String.intercalate ", " gaps ++
  ". Pareto frontier: " ++ toString frontiers.length ++
  " configurations. Constraints: " ++ toString constraints.length ++
  " entries. Remaining budget: " ++ toString budget ++
  " experiments. Propose " ++ toString (min 3 budget) ++
  " new experiment configurations."

/-- A raw LLM proposal dictionary as consumed by
Planner.project_to_design_space: each field is the optional entry of the
corresponding key (proposal.get reads). -/
structure Proposal where
  recon_family : Option String := none
  uq_scheme : Option String := none
  recon_params : Option PyDict := none
  forward_config : Option PyDict := none
  uq_params : Option PyDict := none
  train_config : Option PyDict := none

/-- Planner.llm_generate_configs: the stubbed LLM boundary returns three
fixed simulated proposals and ignores its prompt. -/
def Planner.llm_generate_configs (_prompt : String) : List Proposal :=
  [ { recon_family := some "CIAS-Core-ELP"
      uq_scheme := some "Conformal"
      recon_params := some [("num_layers", .pynum 10), ("hidden_dim", .pynum 128)]
      forward_config := some [("compression_ratio", .pynum 8)]
      uq_params := some [("alpha", .pynum (1/10))]
      train_config := some [("epochs", .pynum 50), ("lr", .pynum (1/1000))] },
    { recon_family := some "CIAS-Core"
      uq_scheme := some "Ensemble"
      recon_params := some [("num_layers", .pynum 8), ("hidden_dim", .pynum 64)]
      forward_config := some [("compression_ratio", .pynum 16)]
      uq_params := some [("n_models", .pynum 5)]
      train_config := some [("epochs", .pynum 40), ("lr", .pynum (5/10000))] },
    { recon_family := some "Baseline-CNN"
      uq_scheme := some "None"
      recon_params := some [("num_layers", .pynum 6)]
      forward_config := some [("compression_ratio", .pynum 8)]
      uq_params := some []
      train_config := some [("epochs", .pynum 30), ("lr", .pynum (1/1000))] } ]

/-- The design space argument of the planner: a dictionary from category
name (recon_families, uq_schemes, ...) to the list of legal values. -/
abbrev DesignSpace := List (String × List String)

/-- Planner.project_to_design_space from kosmos/ai_scientist/planner.py.
The proposed recon_family defaults to the literal CIAS-Core when the key
is absent; when the resulting tag is not among
design_space.get("recon_families", []), the source indexes
design_space["recon_families"][0], which raises KeyError when the key is
absent and IndexError when the list is empty: both raises are the none
result here. All other fields read through proposal.get with defaults. -/
def Planner.project_to_design_space (proposal : Proposal)
    (design_space : DesignSpace) : Option Configuration :=
  let families := (List.lookup "recon_families" design_space).getD []
  let proposed := proposal.recon_family.getD "CIAS-Core"
  let recon_family? : Option String :=
    if families.contains proposed then some proposed
    else (List.lookup "recon_families" design_space).bind List.head?
  recon_family?.map fun recon_family =>
    { forward_config := proposal.forward_config.getD []
      recon_family := recon_family
      recon_params := proposal.recon_params.getD []
      uq_scheme := proposal.uq_scheme.getD "None"
      uq_params := proposal.uq_params.getD []
      train_config := proposal.train_config.getD [] }

/-- Planner.is_valid_config: the source accepts every configuration. -/
def Planner.is_valid_config (_config : Configuration)
    (_constraints : List (String × ℚ)) : Bool := true

/-- The projection loop of Planner.planner_step: projects each raw
proposal, propagating the first raised KeyError / IndexError. -/
def projectProposals (proposals : List Proposal)
    (design_space : DesignSpace) : Except String (List Configuration) :=
  match proposals with
  | [] => .ok []
  | p :: rest =>
      match Planner.project_to_design_space p design_space with
      | none => .error "KeyError: recon_families"
      | some c => (projectProposals rest design_space).map fun cs => c :: cs

/-- Algorithm 3 (PLANNER_STEP) from kosmos/ai_scientist/planner.py:
gap detection, prompt building, stubbed LLM generation, projection and
validation of each proposal, and truncation to the remaining budget. -/
def Planner.planner_step (summary : Summary) (design_space : DesignSpace)
    (budget_remaining : Nat) : Except String (List Configuration) :=
  let gaps := Planner.identify_underexplored_regions summary
  let frontiers := summary.frontiers
  let constraints := summary.constraints
  let prompt :=
    Planner.build_planner_prompt gaps frontiers constraints budget_remaining
  let proposals_raw := Planner.llm_generate_configs prompt
  (projectProposals proposals_raw design_space).map fun projected =>
    let new_configs :=
      projected.filter fun c => Planner.is_valid_config c constraints
    if budget_remaining < new_configs.length then
      new_configs.take budget_remaining
    else new_configs

/-- The mutable state of AIScientistLoop.run: the world model, the budget
counter, the iteration counter, the planner context written in phase E,
and a counter of Executor.run_campaign invocations made so far, used to
index the opaque executor and to supply the fresh record uuids. -/
structure LoopState where
  world_model : WorldModel
  budget_used : Nat
  iteration : Nat
  trends_ctx : List String
  pareto_size_ctx : Nat
  calls : Nat

/-- The state at the top of AIScientistLoop.run: empty world model. -/
def initState : LoopState :=
  { world_model := {}, budget_used := 0, iteration := 0, trends_ctx := [],
    pareto_size_ctx := 0, calls := 0 }

/-- The opaque executor collaborator of the loop: maps the invocation
index and the configuration to either a raised exception (error) or a
(metrics, artifacts) pair. The source executor draws simulated metrics
from a random generator and never raises; the specification treats it as
a possibly-raising black box, which this parameter captures. -/
abbrev Exec := Nat → Configuration → Except String (Metrics × Artifacts)

/-- A planner collaborator with the interface of Planner.planner_step. -/
abbrev PlannerFun :=
  Summary → DesignSpace → Nat → Except String (List Configuration)

/-- The fresh uuid4 drawn by WorldModelManager.update for the n-th
executed campaign, modelled as an injective supply of identifiers. -/
def idOf (n : Nat) : String := "exp-" ++ toString n

/-- Phase 1 of AIScientistLoop.run: execute each seed configuration and
append it to the world model; an executor raise propagates (the source
has no handler), carrying the state at the raise. -/
def seedPhase (exec : Exec) :
    List Configuration → LoopState → Except (String × LoopState) LoopState
  | [], s => .ok s
  | config :: rest, s =>
      match exec s.calls config with
      | .error msg => .error (msg, { s with calls := s.calls + 1 })
      | .ok (metrics, artifacts) =>
          seedPhase exec rest
            { s with
              world_model :=
                WorldModelManager.update s.world_model (idOf s.calls)
                  config metrics artifacts
              calls := s.calls + 1 }

/-- Phase C of AIScientistLoop.run, one discovery round's inner loop:
execute each proposed configuration, append it, increment budget_used,
and break out of the loop once budget_used reaches budget_max, leaving
the remaining configurations of the round unexecuted. An executor raise
propagates with the state at the raise (no handler in the source). -/
def execConfigs (exec : Exec) (budget_max : Nat) :
    List Configuration → LoopState → Except (String × LoopState) LoopState
  | [], s => .ok s
  | config :: rest, s =>
      match exec s.calls config with
      | .error msg => .error (msg, { s with calls := s.calls + 1 })
      | .ok (metrics, artifacts) =>
          let s1 : LoopState :=
            { s with
              world_model :=
                WorldModelManager.update s.world_model (idOf s.calls)
                  config metrics artifacts
              budget_used := s.budget_used + 1
              calls := s.calls + 1 }
          if budget_max ≤ s1.budget_used then .ok s1
          else execConfigs exec budget_max rest s1

/-- One iteration of the Phase 2 while loop of AIScientistLoop.run:
summarize (the print of summary["avg_psnr"] raises KeyError when the key
is absent), plan with budget_remaining, execute the proposed
configurations, analyze, and store the planner context. The planner is a
parameter so that the loop body can be studied against any collaborator
with the planner_step interface; runE instantiates it with the concrete
Planner.planner_step. -/
def discoveryRound (exec : Exec) (planner : PlannerFun)
    (design_space : DesignSpace) (budget_max : Nat) (s0 : LoopState) :
    Except (String × LoopState) LoopState :=
  let s := { s0 with iteration := s0.iteration + 1 }
  let summary := Planner.summarize_world_model s.world_model
  match summary.avg_psnr with
  | none => .error ("KeyError: avg_psnr", s)
  | some _ =>
      let budget_remaining := budget_max - s.budget_used
      match planner summary design_space budget_remaining with
      | .error msg => .error (msg, s)
      | .ok new_configs =>
          match execConfigs exec budget_max new_configs s with
          | .error e => .error e
          | .ok s2 =>
              let analyzed := AnalysisAgent.analysis_step s2.world_model
              .ok { s2 with
                    trends_ctx := analyzed.2
                    pareto_size_ctx := analyzed.1.card }

/-- Outcome of the discovery while loop: normal exit with
budget_used >= budget_max, a propagated exception, or fuel exhaustion of
the fuelled embedding (shown unreachable for the fuel used by runE). -/
inductive LoopResult where
  | done : LoopState → LoopResult
  | failed : String → LoopState → LoopResult
  | fuelOut : LoopState → LoopResult

/-- The state carried by a loop outcome. -/
def LoopResult.state : LoopResult → LoopState
  | .done s => s
  | .failed _ s => s
  | .fuelOut s => s

/-- Whether the fuelled embedding exhausted its fuel. -/
def LoopResult.isFuelOut : LoopResult → Bool
  | .fuelOut _ => true
  | _ => false

/-- Whether the loop ended in a propagated exception. -/
def LoopResult.isFailed : LoopResult → Bool
  | .failed _ _ => true
  | _ => false

/-- The Phase 2 while loop of AIScientistLoop.run (while budget_used <
budget_max), as a fuelled recursion: each iteration runs one
discoveryRound. Fuel exhaustion is a modelling artefact only; with the
fuel runE supplies it is proved unreachable for the concrete planner. -/
def discoveryLoop (exec : Exec) (planner : PlannerFun)
    (design_space : DesignSpace) (budget_max : Nat) :
    Nat → LoopState → LoopResult
  | fuel, s =>
      if budget_max ≤ s.budget_used then .done s
      else
        match fuel with
        | 0 => .fuelOut s
        | fuel + 1 =>
            match discoveryRound exec planner design_space budget_max s with
            | .error (msg, s2) => .failed msg s2
            | .ok s2 => discoveryLoop exec planner design_space budget_max fuel s2

/-- Algorithm 1 (AIScientistLoop.run) from
kosmos/ai_scientist/scientist_loop.py, up to its final analysis pass:
Phase 1 seeds the world model and sets budget_used to the seed count,
Phase 2 iterates discovery rounds with the concrete Planner.planner_step
until the budget is reached; an uncaught exception anywhere aborts the
run. Fuel budget_max + 1 is enough for the loop to reach its exit
condition (proved below). -/
def runE (exec : Exec) (design_space : DesignSpace)
    (initial_configs : List Configuration) (budget_max : Nat) : LoopResult :=
  match seedPhase exec initial_configs initState with
  | .error (msg, s) => .failed msg s
  | .ok s =>
      discoveryLoop exec Planner.planner_step design_space budget_max
        (budget_max + 1) { s with budget_used := initial_configs.length }

/-- Phase 3 of AIScientistLoop.run: the final analysis pass and the
returned (Pareto ids, world model) pair; a propagated exception is the
error case. -/
def AIScientistLoop.run (exec : Exec) (design_space : DesignSpace)
    (initial_configs : List Configuration) (budget_max : Nat) :
    Except String (Finset String × WorldModel) :=
  match runE exec design_space initial_configs budget_max with
  | .done s =>
      .ok ((AnalysisAgent.analysis_step s.world_model).1, s.world_model)
  | .failed msg _ => .error msg
  | .fuelOut _ => .error "fuel exhausted"

/-- Coercion of a PyVal to a dictionary, failing on any other shape. -/
def PyVal.asDict : PyVal → Option PyDict
  | .pydict d => some d
  | _ => none

/-- Coercion of a PyVal to a string, failing on any other shape. -/
def PyVal.asStr : PyVal → Option String
  | .pystr s => some s
  | _ => none

/-- Coercion of a PyVal to a number, failing on any other shape. -/
def PyVal.asNum : PyVal → Option ℚ
  | .pynum q => some q
  | _ => none

/-- Coercion of a PyVal to an optional number: None decodes to none. -/
def PyVal.asOptNum : PyVal → Option (Option ℚ)
  | .pynum q => some (some q)
  | .pynone => some none
  | _ => none

/-- Encoding of a Dict[str, float] field as a dictionary of numbers. -/
def encodeNumEntries (entries : List (String × ℚ)) : PyDict :=
  entries.map fun kv => (kv.1, PyVal.pynum kv.2)

/-- Decoding of a Dict[str, float] field; every value must be a number. -/
def decodeNumEntries : PyDict → Option (List (String × ℚ))
  | [] => some []
  | (k, v) :: rest =>
      match v with
      | .pynum q => (decodeNumEntries rest).map fun tail => (k, q) :: tail
      | _ => none

/-- Encoding of a List[str] field as a list of strings. -/
def encodeStrList (entries : List String) : List PyVal :=
  entries.map PyVal.pystr

/-- Decoding of a List[str] field; every element must be a string. -/
def decodeStrList : List PyVal → Option (List String)
  | [] => some []
  | v :: rest =>
      match v with
      | .pystr s => (decodeStrList rest).map fun tail => s :: tail
      | _ => none

/-- Configuration.to_dict from kosmos/ai_scientist/data_structures.py:
dataclasses.asdict over the six fields, nested mappings kept as they are. -/
def Configuration.to_dict (c : Configuration) : PyVal :=
  .pydict
    [("forward_config", .pydict c.forward_config),
     ("recon_family", .pystr c.recon_family),
     ("recon_params", .pydict c.recon_params),
     ("uq_scheme", .pystr c.uq_scheme),
     ("uq_params", .pydict c.uq_params),
     ("train_config", .pydict c.train_config)]

/-- Modelled from the spec: the repository source has no
Configuration.from_dict (only Configuration.to_dict exists under src);
the specification requires a lossless field-for-field import inverse to
the export, reading each field back from its dictionary key. -/
def Configuration.from_dict (v : PyVal) : Option Configuration := do
  let d ← v.asDict
  let fc ← (List.lookup "forward_config" d).bind PyVal.asDict
  let rf ← (List.lookup "recon_family" d).bind PyVal.asStr
  let rp ← (List.lookup "recon_params" d).bind PyVal.asDict
  let uq ← (List.lookup "uq_scheme" d).bind PyVal.asStr
  let up ← (List.lookup "uq_params" d).bind PyVal.asDict
  let tc ← (List.lookup "train_config" d).bind PyVal.asDict
  pure { forward_config := fc, recon_family := rf, recon_params := rp,
         uq_scheme := uq, uq_params := up, train_config := tc }

/-- Modelled from the spec: dataclasses.asdict export of Metrics (no
explicit to_dict exists under src); field-for-field, the optional
calibration error exported as the value or None, the open-ended metric
map exported as a nested dictionary. -/
def Metrics.to_dict (m : Metrics) : PyVal :=
  .pydict
    [("psnr", .pynum m.psnr),
     ("coverage", .pynum m.coverage),
     ("latency", .pynum m.latency),
     ("calibration_error",
       match m.calibration_error with
       | some q => .pynum q
       | none => .pynone),
     ("other_metrics", .pydict (encodeNumEntries m.other_metrics))]

/-- Modelled from the spec: lossless import inverse of Metrics.to_dict. -/
def Metrics.from_dict (v : PyVal) : Option Metrics := do
  let d ← v.asDict
  let psnr ← (List.lookup "psnr" d).bind PyVal.asNum
  let coverage ← (List.lookup "coverage" d).bind PyVal.asNum
  let latency ← (List.lookup "latency" d).bind PyVal.asNum
  let calibration_error ← (List.lookup "calibration_error" d).bind PyVal.asOptNum
  let om ← (List.lookup "other_metrics" d).bind PyVal.asDict
  let other_metrics ← decodeNumEntries om
  pure { psnr := psnr, coverage := coverage, latency := latency,
         calibration_error := calibration_error,
         other_metrics := other_metrics }

/-- Modelled from the spec: dataclasses.asdict export of Artifacts (no
explicit to_dict exists under src); field-for-field. -/
def Artifacts.to_dict (a : Artifacts) : PyVal :=
  .pydict
    [("checkpoint", .pystr a.checkpoint),
     ("uq_params", .pydict a.uq_params),
     ("train_log", .pystr a.train_log),
     ("eval_samples", .pylist (encodeStrList a.eval_samples)),
     ("fig_scripts", .pylist (encodeStrList a.fig_scripts))]

/-- Coercion of a PyVal to a list, failing on any other shape. -/
def PyVal.asList : PyVal → Option (List PyVal)
  | .pylist l => some l
  | _ => none

/-- Modelled from the spec: lossless import inverse of Artifacts.to_dict. -/
def Artifacts.from_dict (v : PyVal) : Option Artifacts := do
  let d ← v.asDict
  let ck ← (List.lookup "checkpoint" d).bind PyVal.asStr
  let up ← (List.lookup "uq_params" d).bind PyVal.asDict
  let tl ← (List.lookup "train_log" d).bind PyVal.asStr
  let es ← ((List.lookup "eval_samples" d).bind PyVal.asList).bind decodeStrList
  let fs ← ((List.lookup "fig_scripts" d).bind PyVal.asList).bind decodeStrList
  pure { checkpoint := ck, uq_params := up, train_log := tl,
         eval_samples := es, fig_scripts := fs }

/-- Modelled from the spec: the structured-data export of an
ExperimentRecord required by the persistence interface (the source under
src declares ExperimentRecord but no to_dict for it); field-for-field
with nested entity dictionaries. -/
def ExperimentRecord.to_dict (r : ExperimentRecord) : PyVal :=
  .pydict
    [("id", .pystr r.id),
     ("config", r.config.to_dict),
     ("metrics", r.metrics.to_dict),
     ("artifacts", r.artifacts.to_dict),
     ("timestamp", .pystr r.timestamp)]

/-- Modelled from the spec: the lossless structured-data import of an
ExperimentRecord, the inverse of ExperimentRecord.to_dict. -/
def ExperimentRecord.from_dict (v : PyVal) : Option ExperimentRecord := do
  let d ← v.asDict
  let i ← (List.lookup "id" d).bind PyVal.asStr
  let c ← (List.lookup "config" d).bind Configuration.from_dict
  let m ← (List.lookup "metrics" d).bind Metrics.from_dict
  let a ← (List.lookup "artifacts" d).bind Artifacts.from_dict
  let ts ← (List.lookup "timestamp" d).bind PyVal.asStr
  pure { id := i, config := c, metrics := m, artifacts := a, timestamp := ts }

/-- Sample configuration used by concrete witnesses. -/
def cfgA : Configuration :=
  { forward_config := [], recon_family := "CIAS-Core", recon_params := [],
    uq_scheme := "None", uq_params := [], train_config := [] }

/-- Sample configuration in a second stratum, used by concrete witnesses. -/
def cfgB : Configuration :=
  { forward_config := [], recon_family := "CIAS-Core-ELP", recon_params := [],
    uq_scheme := "Conformal", uq_params := [], train_config := [] }

/-- Sample metrics dominating mB on psnr and coverage. -/
def mA : Metrics := { psnr := 30, coverage := 9/10, latency := 20 }

/-- Sample metrics dominated by mA on psnr and coverage. -/
def mB : Metrics := { psnr := 28, coverage := 85/100, latency := 20 }

/-- Sample metrics with a set calibration error of 1/2, dominating mD on
the calibration_error objective. -/
def mC : Metrics :=
  { psnr := 30, coverage := 9/10, latency := 20,
    calibration_error := some (1/2) }

/-- Sample metrics with a set calibration error of 1/5, dominated by mC
on the calibration_error objective. -/
def mD : Metrics :=
  { psnr := 30, coverage := 9/10, latency := 20,
    calibration_error := some (1/5) }

/-- Sample artifacts used by concrete witnesses. -/
def artA : Artifacts :=
  { checkpoint := "checkpoint.pth", uq_params := [], train_log := "log.txt",
    eval_samples := ["sample_0.png"], fig_scripts := ["figure_0.py"] }

/-- Sample record A, with metrics dominating those of record B. -/
def recA : ExperimentRecord :=
  { id := "A", config := cfgA, metrics := mA, artifacts := artA }

/-- Sample record B, dominated by record A. -/
def recB : ExperimentRecord :=
  { id := "B", config := cfgA, metrics := mB, artifacts := artA }

/-- Sample record C, carrying calibration error 1/2. -/
def recC : ExperimentRecord :=
  { id := "C", config := cfgA, metrics := mC, artifacts := artA }

/-- Sample record D, carrying calibration error 1/5. -/
def recD : ExperimentRecord :=
  { id := "D", config := cfgA, metrics := mD, artifacts := artA }

/-- A never-raising executor with constant simulated results, standing in
for the concrete Executor.run_campaign (which never raises). -/
def stubExec : Exec := fun _ _ => .ok (mA, artA)

/-- An executor that raises on its invocation of index 2 (its third call)
and succeeds elsewhere, used to study exception propagation. -/
def failExec2 : Exec :=
  fun n _ => if n = 2 then .error "boom" else .ok (mA, artA)

/-- The standard design space of the repository examples. -/
def dsStd : DesignSpace :=
  [("recon_families", ["CIAS-Core", "CIAS-Core-ELP", "Baseline-CNN"]),
   ("uq_schemes", ["Conformal", "Ensemble", "None"])]

/-- A planner collaborator proposing zero configurations every round. -/
def emptyPlanner : PlannerFun := fun _ _ _ => .ok []

/-- A loop state holding one executed record with one unit of budget
used, from which an empty-proposal round makes no budget progress. -/
def stuckState : LoopState :=
  { world_model := { experiments := [recA], indices := [] },
    budget_used := 1, iteration := 0, trends_ctx := [],
    pareto_size_ctx := 0, calls := 1 }

/-- The discovery loop of the source, run against a planner that returns
zero configurations each round from stuckState with budget 5, exhausts
every finite fuel: the while loop never exits. -/
def discoveryLoopStuck : Prop :=
  ∀ fuel,
    (discoveryLoop stubExec emptyPlanner dsStd 5 fuel stuckState).isFuelOut
      = true

/-- An executor succeeding on every call is the behaviour of the concrete
Executor.run_campaign, which never raises. -/
def ExecOk (exec : Exec) : Prop :=
  ∀ n config, ∃ result, exec n config = Except.ok result

theorem dominatesLoop_eq (metrics1 metrics2 : Metrics) (objs : List String)
    (b : Bool) :
    dominatesLoop metrics1 metrics2 objs b =
      ((objs.all fun o =>
          decide (metricValue metrics1 o ≤ metricValue metrics2 o)) &&
       (b || objs.any fun o =>
          decide (metricValue metrics1 o < metricValue metrics2 o))) := by
  induction objs generalizing b with
  | nil => simp [dominatesLoop]
  | cons o rest ih =>
      simp only [dominatesLoop, List.all_cons, List.any_cons]
      by_cases h : metricValue metrics2 o < metricValue metrics1 o
      · rw [if_pos h]
        have : ¬ metricValue metrics1 o ≤ metricValue metrics2 o := not_le.mpr h
        simp [this]
      · rw [if_neg h, ih]
        have hle : metricValue metrics1 o ≤ metricValue metrics2 o := not_lt.mp h
        rw [decide_eq_true hle, Bool.true_and]
        cases b <;>
          cases hlt : decide (metricValue metrics1 o < metricValue metrics2 o) <;>
            simp [Bool.or_assoc]

theorem dominatesB_iff (b a : ExperimentRecord) (objs : List String) :
    dominatesB b.metrics a.metrics objs = true ↔ Dominates objs b a := by
  unfold dominatesB Dominates
  rw [dominatesLoop_eq]
  simp [List.all_eq_true, List.any_eq_true]

theorem isDominated_iff (exps : List ExperimentRecord) (objs : List String)
    (e : ExperimentRecord) :
    isDominated exps objs e = true ↔
      ∃ e2 ∈ exps, e2.id ≠ e.id ∧ Dominates objs e2 e := by
  unfold isDominated
  simp only [List.any_eq_true, Bool.and_eq_true, Bool.not_eq_eq_eq_not,
    Bool.not_true, beq_eq_false_iff_ne, dominatesB_iff]
  constructor
  · rintro ⟨e2, hm, hne, hd⟩
    exact ⟨e2, hm, fun h => hne h.symm, hd⟩
  · rintro ⟨e2, hm, hne, hd⟩
    exact ⟨e2, hm, fun h => hne h.symm, hd⟩

theorem mem_foldl_pareto (exps : List ExperimentRecord) (objs : List String)
    (l : List ExperimentRecord) (s : Finset String) (x : String) :
    (x ∈ l.foldl
        (fun pareto_set exp1 =>
          if isDominated exps objs exp1 then pareto_set
          else insert exp1.id pareto_set) s) ↔
      x ∈ s ∨ ∃ e ∈ l, e.id = x ∧ isDominated exps objs e = false := by
  induction l generalizing s with
  | nil => simp
  | cons e rest ih =>
      simp only [List.foldl_cons]
      by_cases h : isDominated exps objs e
      · rw [if_pos h, ih]
        simp only [List.mem_cons]
        constructor
        · rintro (hs | ⟨e2, hm, hx, hnd⟩)
          · exact Or.inl hs
          · exact Or.inr ⟨e2, Or.inr hm, hx, hnd⟩
        · rintro (hs | ⟨e2, hm, hx, hnd⟩)
          · exact Or.inl hs
          · rcases hm with rfl | hm
            · rw [h] at hnd; cases hnd
            · exact Or.inr ⟨e2, hm, hx, hnd⟩
      · rw [if_neg h, ih]
        simp only [Finset.mem_insert, List.mem_cons]
        constructor
        · rintro ((hx | hs) | ⟨e2, hm, hx, hnd⟩)
          · exact Or.inr ⟨e, Or.inl rfl, hx.symm, Bool.eq_false_iff.mpr h⟩
          · exact Or.inl hs
          · exact Or.inr ⟨e2, Or.inr hm, hx, hnd⟩
        · rintro (hs | ⟨e2, hm, hx, hnd⟩)
          · exact Or.inl (Or.inr hs)
          · rcases hm with rfl | hm
            · exact Or.inl (Or.inl hx.symm)
            · exact Or.inr ⟨e2, hm, hx, hnd⟩

theorem mem_pareto_iff (exps : List ExperimentRecord) (objs : List String)
    (x : String) :
    x ∈ AnalysisAgent.compute_pareto_front exps objs ↔
      ∃ e ∈ exps, e.id = x ∧
        ∀ e2 ∈ exps, e2.id ≠ e.id → ¬ Dominates objs e2 e := by
  unfold AnalysisAgent.compute_pareto_front
  rw [mem_foldl_pareto]
  simp only [Finset.not_mem_empty, false_or]
  constructor
  · rintro ⟨e, hm, hx, hnd⟩
    refine ⟨e, hm, hx, fun e2 hm2 hne hd => ?_⟩
    have : isDominated exps objs e = true :=
      (isDominated_iff exps objs e).mpr ⟨e2, hm2, hne, hd⟩
    rw [this] at hnd; cases hnd
  · rintro ⟨e, hm, hx, hnot⟩
    refine ⟨e, hm, hx, ?_⟩
    cases hv : isDominated exps objs e with
    | false => rfl
    | true =>
        rcases (isDominated_iff exps objs e).mp hv with ⟨e2, hm2, hne, hd⟩
        exact absurd hd (hnot e2 hm2 hne)

theorem sum_map_le_sum_map (l : List String) (f g : String → ℚ)
    (h : ∀ o ∈ l, f o ≤ g o) : (l.map f).sum ≤ (l.map g).sum := by
  induction l with
  | nil => simp
  | cons o rest ih =>
      simp only [List.map_cons, List.sum_cons]
      have h1 := h o (List.mem_cons_self o rest)
      have h2 := ih fun x hx => h x (List.mem_cons_of_mem o hx)
      exact add_le_add h1 h2

theorem sum_map_lt_sum_map (l : List String) (f g : String → ℚ)
    (h : ∀ o ∈ l, f o ≤ g o) (hs : ∃ o ∈ l, f o < g o) :
    (l.map f).sum < (l.map g).sum := by
  induction l with
  | nil => rcases hs with ⟨o, ho, _⟩; cases ho
  | cons o rest ih =>
      simp only [List.map_cons, List.sum_cons]
      rcases hs with ⟨o2, ho2, hlt⟩
      rcases List.mem_cons.mp ho2 with rfl | ho2
      · have h2 := sum_map_le_sum_map rest f g
          fun x hx => h x (List.mem_cons_of_mem o2 hx)
        exact add_lt_add_of_lt_of_le hlt h2
      · have h1 := h o (List.mem_cons_self o rest)
        have h2 := ih (fun x hx => h x (List.mem_cons_of_mem o hx)) ⟨o2, ho2, hlt⟩
        exact add_lt_add_of_le_of_lt h1 h2

theorem exists_max_sum (objs : List String) (e : ExperimentRecord)
    (rest : List ExperimentRecord) :
    ∃ m ∈ e :: rest, ∀ e2 ∈ e :: rest,
      (objs.map fun o => metricValue e2.metrics o).sum ≤
        (objs.map fun o => metricValue m.metrics o).sum := by
  induction rest generalizing e with
  | nil => exact ⟨e, List.mem_cons_self e [], by simp⟩
  | cons f rest ih =>
      rcases ih f with ⟨m, hm, hmax⟩
      by_cases hc : (objs.map fun o => metricValue e.metrics o).sum ≤
          (objs.map fun o => metricValue m.metrics o).sum
      · refine ⟨m, List.mem_cons_of_mem e hm, fun e2 he2 => ?_⟩
        rcases List.mem_cons.mp he2 with rfl | he2
        · exact hc
        · exact hmax e2 he2
      · refine ⟨e, List.mem_cons_self e (f :: rest), fun e2 he2 => ?_⟩
        rcases List.mem_cons.mp he2 with rfl | he2
        · exact le_refl _
        · exact le_trans (hmax e2 he2) (le_of_not_le hc)

theorem dominates_of_eq_vector (objs : List String)
    (a b c : ExperimentRecord)
    (heq : ∀ o ∈ objs, metricValue a.metrics o = metricValue b.metrics o) :
    Dominates objs c a ↔ Dominates objs c b := by
  unfold Dominates
  constructor
  · rintro ⟨hall, o, ho, hlt⟩
    exact ⟨fun o2 ho2 => (heq o2 ho2) ▸ hall o2 ho2, o, ho, (heq o ho) ▸ hlt⟩
  · rintro ⟨hall, o, ho, hlt⟩
    exact ⟨fun o2 ho2 => (heq o2 ho2) ▸ hall o2 ho2, o, ho, (heq o ho) ▸ hlt⟩

/-- C5: on any non-empty input with pairwise-distinct ids the Pareto
frontier is non-empty; two records with identical objective vectors never
dominate one another, and both their ids are on the frontier whenever no
third input record dominates them. -/
theorem pareto_front_nonempty_and_ties (exps : List ExperimentRecord)
    (objs : List String) (hne : exps ≠ [])
    (hnd : (exps.map fun e => e.id).Nodup) :
    (AnalysisAgent.compute_pareto_front exps objs).Nonempty ∧
    (∀ a b : ExperimentRecord,
      (∀ o ∈ objs, metricValue a.metrics o = metricValue b.metrics o) →
        ¬ Dominates objs b a ∧ ¬ Dominates objs a b) ∧
    (∀ a ∈ exps, ∀ b ∈ exps,
      (∀ o ∈ objs, metricValue a.metrics o = metricValue b.metrics o) →
      (∀ c ∈ exps, ¬ Dominates objs c a) →
        a.id ∈ AnalysisAgent.compute_pareto_front exps objs ∧
        b.id ∈ AnalysisAgent.compute_pareto_front exps objs) := by
  refine ⟨?_, ?_, ?_⟩
  · rcases List.exists_cons_of_ne_nil hne with ⟨e, rest, rfl⟩
    rcases exists_max_sum objs e rest with ⟨m, hm, hmax⟩
    refine ⟨m.id, (mem_pareto_iff _ objs m.id).mpr
      ⟨m, hm, rfl, fun e2 he2 _ hd => ?_⟩⟩
    rcases hd with ⟨hall, hex⟩
    have hlt := sum_map_lt_sum_map objs
      (fun o => metricValue m.metrics o) (fun o => metricValue e2.metrics o)
      hall hex
    exact absurd (hmax e2 he2) (not_le.mpr hlt)
  · intro a b heq
    constructor
    · rintro ⟨_, o, ho, hlt⟩
      exact absurd ((heq o ho) ▸ hlt) (lt_irrefl _)
    · rintro ⟨_, o, ho, hlt⟩
      exact absurd ((heq o ho).symm ▸ hlt) (lt_irrefl _)
  · intro a ha b hb heq hnothird
    constructor
    · exact (mem_pareto_iff _ objs a.id).mpr
        ⟨a, ha, rfl, fun e2 he2 _ => hnothird e2 he2⟩
    · refine (mem_pareto_iff _ objs b.id).mpr
        ⟨b, hb, rfl, fun e2 he2 _ hd => ?_⟩
      exact hnothird e2 he2 ((dominates_of_eq_vector objs a b e2 heq).mpr hd)

/-- C5 witness: the concrete two-record input of the C1 witness is
non-empty and has distinct ids, so its frontier is non-empty and the tie
properties hold on it. -/
theorem pareto_front_nonempty_and_ties_witness :
    (([recA, recB] : List ExperimentRecord) ≠ [] ∧
      ([recA, recB].map fun e => e.id).Nodup) ∧
    (AnalysisAgent.compute_pareto_front [recA, recB]
      ["psnr", "coverage"]).Nonempty :=
  ⟨⟨List.cons_ne_nil recA [recB], by decide⟩,
    (pareto_front_nonempty_and_ties [recA, recB] ["psnr", "coverage"]
      (List.cons_ne_nil recA [recB]) (by decide)).1⟩

theorem addToStrata_lookup_self
    (strata : List ((String × String) × List ExperimentRecord))
    (k : String × String) (e : ExperimentRecord) :
    List.lookup k (addToStrata strata k e) =
      some ((List.lookup k strata).getD [] ++ [e]) := by
  induction strata with
  | nil => simp [addToStrata, List.lookup]
  | cons p rest ih =>
      rcases p with ⟨k2, es⟩
      by_cases h : k2 = k
      · subst h
        simp [addToStrata, List.lookup]
      · simp only [addToStrata, if_neg h, List.lookup]
        rw [beq_eq_false_iff_ne.mpr fun hk => h hk.symm, ih]

theorem addToStrata_lookup_ne
    (strata : List ((String × String) × List ExperimentRecord))
    (k k3 : String × String) (e : ExperimentRecord) (h : k3 ≠ k) :
    List.lookup k3 (addToStrata strata k e) = List.lookup k3 strata := by
  induction strata with
  | nil => simp [addToStrata, List.lookup, beq_eq_false_iff_ne.mpr h]
  | cons p rest ih =>
      rcases p with ⟨k2, es⟩
      by_cases h2 : k2 = k
      · subst h2
        simp [addToStrata, List.lookup, beq_eq_false_iff_ne.mpr h]
      · by_cases h3 : k3 = k2
        · subst h3
          simp [addToStrata, if_neg h2, List.lookup]
        · simp [addToStrata, if_neg h2, List.lookup,
            beq_eq_false_iff_ne.mpr h3, ih]

theorem addToStrata_keys_mem
    (strata : List ((String × String) × List ExperimentRecord))
    (k : String × String) (e : ExperimentRecord)
    (h : k ∈ strata.map Prod.fst) :
    (addToStrata strata k e).map Prod.fst = strata.map Prod.fst := by
  induction strata with
  | nil => cases h
  | cons p rest ih =>
      rcases p with ⟨k2, es⟩
      by_cases h2 : k2 = k
      · simp [addToStrata, if_pos h2]
      · simp only [addToStrata, if_neg h2, List.map_cons]
        simp only [List.map_cons, List.mem_cons] at h
        rcases h with h | h
        · exact absurd h.symm h2
        · rw [ih h]

theorem addToStrata_keys_new
    (strata : List ((String × String) × List ExperimentRecord))
    (k : String × String) (e : ExperimentRecord)
    (h : k ∉ strata.map Prod.fst) :
    (addToStrata strata k e).map Prod.fst = strata.map Prod.fst ++ [k] := by
  induction strata with
  | nil => simp [addToStrata]
  | cons p rest ih =>
      rcases p with ⟨k2, es⟩
      simp only [List.map_cons, List.mem_cons] at h
      push_neg at h
      have hne : ¬ (k2 = k) := fun h2 => h.1 h2.symm
      simp only [addToStrata, if_neg hne, List.map_cons, List.cons_append,
        List.cons.injEq, true_and]
      exact ih h.2

theorem addToStrata_keys_nodup
    (strata : List ((String × String) × List ExperimentRecord))
    (k : String × String) (e : ExperimentRecord)
    (h : (strata.map Prod.fst).Nodup) :
    ((addToStrata strata k e).map Prod.fst).Nodup := by
  by_cases hm : k ∈ strata.map Prod.fst
  · rw [addToStrata_keys_mem strata k e hm]; exact h
  · rw [addToStrata_keys_new strata k e hm]
    refine List.Nodup.append h (List.nodup_singleton k) ?_
    intro a ha hb
    rw [List.mem_singleton] at hb
    subst hb
    exact hm ha

theorem strataOf_go_keys_nodup (l : List ExperimentRecord)
    (strata : List ((String × String) × List ExperimentRecord))
    (h : (strata.map Prod.fst).Nodup) :
    ((l.foldl (fun s e => addToStrata s (keyOf e) e) strata).map
      Prod.fst).Nodup := by
  induction l generalizing strata with
  | nil => exact h
  | cons e rest ih =>
      exact ih _ (addToStrata_keys_nodup strata (keyOf e) e h)

theorem strataOf_go_lookup (l : List ExperimentRecord)
    (strata : List ((String × String) × List ExperimentRecord))
    (k : String × String) :
    (List.lookup k
        (l.foldl (fun s e => addToStrata s (keyOf e) e) strata)).getD [] =
      (List.lookup k strata).getD [] ++
        l.filter fun e => decide (keyOf e = k) := by
  induction l generalizing strata with
  | nil => simp
  | cons e rest ih =>
      simp only [List.foldl_cons, List.filter_cons]
      by_cases h : keyOf e = k
      · subst h
        rw [ih, addToStrata_lookup_self]
        simp [List.append_assoc]
      · rw [ih, addToStrata_lookup_ne strata (keyOf e) k e fun h2 => h h2.symm]
        simp [h]

theorem strataOf_go_keys_mono (l : List ExperimentRecord)
    (strata : List ((String × String) × List ExperimentRecord))
    (k : String × String) (h : k ∈ strata.map Prod.fst) :
    k ∈ (l.foldl (fun s x => addToStrata s (keyOf x) x) strata).map
      Prod.fst := by
  induction l generalizing strata with
  | nil => exact h
  | cons f rest ih =>
      refine ih _ ?_
      by_cases hm : keyOf f ∈ strata.map Prod.fst
      · rw [addToStrata_keys_mem _ _ f hm]; exact h
      · rw [addToStrata_keys_new _ _ f hm]; exact List.mem_append_left _ h

theorem strataOf_go_keys_covers (l : List ExperimentRecord)
    (strata : List ((String × String) × List ExperimentRecord))
    (e : ExperimentRecord) (he : e ∈ l) :
    keyOf e ∈
      (l.foldl (fun s x => addToStrata s (keyOf x) x) strata).map
        Prod.fst := by
  induction l generalizing strata with
  | nil => cases he
  | cons f rest ih =>
      simp only [List.foldl_cons]
      rcases List.mem_cons.mp he with rfl | he2
      · refine strataOf_go_keys_mono rest _ (keyOf e) ?_
        by_cases hm : keyOf e ∈ strata.map Prod.fst
        · rw [addToStrata_keys_mem _ _ e hm]; exact hm
        · rw [addToStrata_keys_new _ _ e hm]
          exact List.mem_append_right _ (List.mem_singleton_self _)
      · exact ih _ he2

theorem lookup_eq_of_mem_of_nodup
    (strata : List ((String × String) × List ExperimentRecord))
    (k : String × String) (es : List ExperimentRecord)
    (hnd : (strata.map Prod.fst).Nodup) (hm : (k, es) ∈ strata) :
    List.lookup k strata = some es := by
  induction strata with
  | nil => cases hm
  | cons p rest ih =>
      rcases p with ⟨k2, es2⟩
      simp only [List.map_cons, List.nodup_cons] at hnd
      rcases List.mem_cons.mp hm with heq | hm2
      · rw [Prod.mk.injEq] at heq
        rcases heq with ⟨rfl, rfl⟩
        simp [List.lookup]
      · have hne : k ≠ k2 := by
          rintro rfl
          exact hnd.1 (List.mem_map_of_mem Prod.fst hm2)
        simp only [List.lookup, beq_eq_false_iff_ne.mpr hne]
        exact ih hnd.2 hm2

theorem analysis_fold_split
    (strata : List ((String × String) × List ExperimentRecord))
    (acc : Finset String × List String) :
    strata.foldl
      (fun acc stratum =>
        let pareto_ids :=
          AnalysisAgent.compute_pareto_front stratum.2 ["psnr", "coverage"]
        let calib_stats := AnalysisAgent.compute_calibration_stats stratum.2
        let trend_summary :=
          AnalysisAgent.summarize_trends stratum.2 pareto_ids calib_stats
        (acc.1 ∪ pareto_ids,
         acc.2 ++ ["[" ++ pyTupleStr stratum.1 ++ "] " ++ trend_summary]))
      acc =
    (strata.foldl
      (fun fs stratum =>
        fs ∪ AnalysisAgent.compute_pareto_front stratum.2 ["psnr", "coverage"])
      acc.1,
     acc.2 ++ strata.map fun stratum =>
       "[" ++ pyTupleStr stratum.1 ++ "] " ++
         AnalysisAgent.summarize_trends stratum.2
           (AnalysisAgent.compute_pareto_front stratum.2 ["psnr", "coverage"])
           (AnalysisAgent.compute_calibration_stats stratum.2)) := by
  induction strata generalizing acc with
  | nil => simp
  | cons p rest ih =>
      simp only [List.foldl_cons, List.map_cons]
      rw [ih]
      simp [List.append_assoc]

/-- C6: analysis_step groups the records into strata keyed by
(recon_family, uq_scheme) forming an exact partition (keys pairwise
distinct, each stratum holding precisely the records carrying its key,
every record keyed); the returned id set is the union of the per-stratum
Pareto frontiers on psnr and coverage, and the trend list holds exactly
one string per stratum, prefixed by the rendering of its stratum key. -/
theorem analysis_step_spec (wm : WorldModel) :
    ((strataOf wm.experiments).map Prod.fst).Nodup ∧
    (∀ p ∈ strataOf wm.experiments,
       p.2 = wm.experiments.filter fun e => decide (keyOf e = p.1)) ∧
    (∀ e ∈ wm.experiments,
       keyOf e ∈ (strataOf wm.experiments).map Prod.fst) ∧
    ((AnalysisAgent.analysis_step wm).1 =
       (strataOf wm.experiments).foldl
         (fun fs stratum =>
           fs ∪ AnalysisAgent.compute_pareto_front stratum.2
             ["psnr", "coverage"]) ∅) ∧
    ((AnalysisAgent.analysis_step wm).2 =
       (strataOf wm.experiments).map fun stratum =>
         "[" ++ pyTupleStr stratum.1 ++ "] " ++
           AnalysisAgent.summarize_trends stratum.2
             (AnalysisAgent.compute_pareto_front stratum.2
               ["psnr", "coverage"])
             (AnalysisAgent.compute_calibration_stats stratum.2)) := by
  have hnd : ((strataOf wm.experiments).map Prod.fst).Nodup :=
    strataOf_go_keys_nodup wm.experiments [] List.nodup_nil
  refine ⟨hnd, ?_, ?_, ?_, ?_⟩
  · rintro ⟨k, es⟩ hp
    have hl := lookup_eq_of_mem_of_nodup _ k es hnd hp
    have hg := strataOf_go_lookup wm.experiments [] k
    unfold strataOf at hl
    rw [hl] at hg
    simpa using hg
  · intro e he
    exact strataOf_go_keys_covers wm.experiments [] e he
  · unfold AnalysisAgent.analysis_step
    rw [analysis_fold_split]
  · unfold AnalysisAgent.analysis_step
    rw [analysis_fold_split]
    simp

theorem indexAppend_lookup_self
    (ix : List (String × List (String × String))) (k : String)
    (v : String × String) :
    List.lookup k (indexAppend ix k v) =
      some ((List.lookup k ix).getD [] ++ [v]) := by
  induction ix with
  | nil => simp [indexAppend, List.lookup]
  | cons p rest ih =>
      rcases p with ⟨k2, vs⟩
      by_cases h : k2 = k
      · subst h
        simp [indexAppend, List.lookup]
      · simp only [indexAppend, if_neg h, List.lookup]
        rw [beq_eq_false_iff_ne.mpr fun hk => h hk.symm, ih]

theorem indexAppend_lookup_ne
    (ix : List (String × List (String × String))) (k k3 : String)
    (v : String × String) (h : k3 ≠ k) :
    List.lookup k3 (indexAppend ix k v) = List.lookup k3 ix := by
  induction ix with
  | nil => simp [indexAppend, List.lookup, beq_eq_false_iff_ne.mpr h]
  | cons p rest ih =>
      rcases p with ⟨k2, vs⟩
      by_cases h2 : k2 = k
      · subst h2
        simp [indexAppend, List.lookup, beq_eq_false_iff_ne.mpr h]
      · by_cases h3 : k3 = k2
        · subst h3
          simp [indexAppend, if_neg h2, List.lookup]
        · simp [indexAppend, if_neg h2, List.lookup,
            beq_eq_false_iff_ne.mpr h3, ih]

theorem indexGet_append_self
    (ix : List (String × List (String × String))) (k : String)
    (v : String × String) :
    indexGet (indexAppend ix k v) k = indexGet ix k ++ [v] := by
  unfold indexGet
  rw [indexAppend_lookup_self]
  rfl

theorem indexGet_append_ne
    (ix : List (String × List (String × String))) (k k3 : String)
    (v : String × String) (h : k3 ≠ k) :
    indexGet (indexAppend ix k v) k3 = indexGet ix k3 := by
  unfold indexGet
  rw [indexAppend_lookup_ne ix k k3 v h]

theorem update_preserves_index_inv (wm : WorldModel) (newId : String)
    (c : Configuration) (m : Metrics) (a : Artifacts)
    (h1 : ∀ k, ∀ pr ∈ indexGet wm.indices k,
      ∃ r ∈ wm.experiments, r.id = pr.2 ∧
        (k = "recon_family" → r.config.recon_family = pr.1) ∧
        (k = "uq_scheme" → r.config.uq_scheme = pr.1))
    (h2 : ∀ r ∈ wm.experiments,
      (r.config.recon_family, r.id) ∈ indexGet wm.indices "recon_family" ∧
      (r.config.uq_scheme, r.id) ∈ indexGet wm.indices "uq_scheme") :
    (∀ k, ∀ pr ∈ indexGet (WorldModelManager.update wm newId c m a).indices k,
      ∃ r ∈ (WorldModelManager.update wm newId c m a).experiments,
        r.id = pr.2 ∧
        (k = "recon_family" → r.config.recon_family = pr.1) ∧
        (k = "uq_scheme" → r.config.uq_scheme = pr.1)) ∧
    (∀ r ∈ (WorldModelManager.update wm newId c m a).experiments,
      (r.config.recon_family, r.id) ∈
        indexGet (WorldModelManager.update wm newId c m a).indices
          "recon_family" ∧
      (r.config.uq_scheme, r.id) ∈
        indexGet (WorldModelManager.update wm newId c m a).indices
          "uq_scheme") := by
  have hne : ("uq_scheme" : String) ≠ "recon_family" := by decide
  have hne2 : ("recon_family" : String) ≠ "uq_scheme" := by decide
  have hrf : indexGet (WorldModelManager.update wm newId c m a).indices
      "recon_family" = indexGet wm.indices "recon_family" ++
        [(c.recon_family, newId)] := by
    simp only [WorldModelManager.update]
    rw [indexGet_append_ne _ _ _ _ hne2, indexGet_append_self]
  have huq : indexGet (WorldModelManager.update wm newId c m a).indices
      "uq_scheme" = indexGet wm.indices "uq_scheme" ++
        [(c.uq_scheme, newId)] := by
    simp only [WorldModelManager.update]
    rw [indexGet_append_self]
    rw [indexGet_append_ne _ _ _ _ hne]
  have hexp : (WorldModelManager.update wm newId c m a).experiments =
      wm.experiments ++
        [{ id := newId, config := c, metrics := m, artifacts := a }] := rfl
  constructor
  · intro k pr hpr
    by_cases hk1 : k = "recon_family"
    · subst hk1
      rw [hrf] at hpr
      rcases List.mem_append.mp hpr with hold | hnew
      · rcases h1 "recon_family" pr hold with ⟨r, hr, hid, hf, hu⟩
        exact ⟨r, hexp ▸ List.mem_append_left _ hr, hid, hf, hu⟩
      · rw [List.mem_singleton] at hnew
        subst hnew
        refine ⟨{ id := newId, config := c, metrics := m, artifacts := a },
          hexp ▸ List.mem_append_right _ (List.mem_singleton_self _),
          rfl, fun _ => rfl, fun hcon => ?_⟩
        exact absurd hcon hne2
    · by_cases hk2 : k = "uq_scheme"
      · subst hk2
        rw [huq] at hpr
        rcases List.mem_append.mp hpr with hold | hnew
        · rcases h1 "uq_scheme" pr hold with ⟨r, hr, hid, hf, hu⟩
          exact ⟨r, hexp ▸ List.mem_append_left _ hr, hid, hf, hu⟩
        · rw [List.mem_singleton] at hnew
          subst hnew
          refine ⟨{ id := newId, config := c, metrics := m, artifacts := a },
            hexp ▸ List.mem_append_right _ (List.mem_singleton_self _),
            rfl, fun hcon => absurd hcon hne, fun _ => rfl⟩
      · have hsame : indexGet (WorldModelManager.update wm newId c m a).indices
            k = indexGet wm.indices k := by
          simp only [WorldModelManager.update]
          rw [indexGet_append_ne _ _ _ _ hk2, indexGet_append_ne _ _ _ _ hk1]
        rw [hsame] at hpr
        rcases h1 k pr hpr with ⟨r, hr, hid, hf, hu⟩
        exact ⟨r, hexp ▸ List.mem_append_left _ hr, hid, hf, hu⟩
  · intro r hr
    rw [hexp] at hr
    rcases List.mem_append.mp hr with hold | hnew
    · rcases h2 r hold with ⟨hf, hu⟩
      exact ⟨hrf ▸ List.mem_append_left _ hf, huq ▸ List.mem_append_left _ hu⟩
    · rw [List.mem_singleton] at hnew
      subst hnew
      constructor
      · rw [hrf]
        exact List.mem_append_right _ (List.mem_singleton_self _)
      · rw [huq]
        exact List.mem_append_right _ (List.mem_singleton_self _)

/-- C8: after any sequence of WorldModelManager.update calls starting
from the empty WorldModel, every (value, id) pair stored in an index
belongs to a record with that id (and that tag value) present in the
record sequence, and conversely every record has its (recon_family, id)
and (uq_scheme, id) entries in the respective indices. -/
theorem world_model_index_consistency
    (ups : List (String × Configuration × Metrics × Artifacts)) :
    (∀ k, ∀ pr ∈ indexGet
        ((ups.foldl
          (fun wm u => WorldModelManager.update wm u.1 u.2.1 u.2.2.1 u.2.2.2)
          {}).indices) k,
      ∃ r ∈ (ups.foldl
          (fun wm u => WorldModelManager.update wm u.1 u.2.1 u.2.2.1 u.2.2.2)
          {}).experiments, r.id = pr.2 ∧
        (k = "recon_family" → r.config.recon_family = pr.1) ∧
        (k = "uq_scheme" → r.config.uq_scheme = pr.1)) ∧
    (∀ r ∈ (ups.foldl
        (fun wm u => WorldModelManager.update wm u.1 u.2.1 u.2.2.1 u.2.2.2)
        {}).experiments,
      (r.config.recon_family, r.id) ∈ indexGet
        ((ups.foldl
          (fun wm u => WorldModelManager.update wm u.1 u.2.1 u.2.2.1 u.2.2.2)
          {}).indices) "recon_family" ∧
      (r.config.uq_scheme, r.id) ∈ indexGet
        ((ups.foldl
          (fun wm u => WorldModelManager.update wm u.1 u.2.1 u.2.2.1 u.2.2.2)
          {}).indices) "uq_scheme") := by
  suffices hgen : ∀ (l : List (String × Configuration × Metrics × Artifacts))
      (wm : WorldModel),
      (∀ k, ∀ pr ∈ indexGet wm.indices k,
        ∃ r ∈ wm.experiments, r.id = pr.2 ∧
          (k = "recon_family" → r.config.recon_family = pr.1) ∧
          (k = "uq_scheme" → r.config.uq_scheme = pr.1)) →
      (∀ r ∈ wm.experiments,
        (r.config.recon_family, r.id) ∈ indexGet wm.indices "recon_family" ∧
        (r.config.uq_scheme, r.id) ∈ indexGet wm.indices "uq_scheme") →
      (∀ k, ∀ pr ∈ indexGet
          ((l.foldl
            (fun wm u => WorldModelManager.update wm u.1 u.2.1 u.2.2.1 u.2.2.2)
            wm).indices) k,
        ∃ r ∈ (l.foldl
            (fun wm u => WorldModelManager.update wm u.1 u.2.1 u.2.2.1 u.2.2.2)
            wm).experiments, r.id = pr.2 ∧
          (k = "recon_family" → r.config.recon_family = pr.1) ∧
          (k = "uq_scheme" → r.config.uq_scheme = pr.1)) ∧
      (∀ r ∈ (l.foldl
          (fun wm u => WorldModelManager.update wm u.1 u.2.1 u.2.2.1 u.2.2.2)
          wm).experiments,
        (r.config.recon_family, r.id) ∈ indexGet
          ((l.foldl
            (fun wm u => WorldModelManager.update wm u.1 u.2.1 u.2.2.1 u.2.2.2)
            wm).indices) "recon_family" ∧
        (r.config.uq_scheme, r.id) ∈ indexGet
          ((l.foldl
            (fun wm u => WorldModelManager.update wm u.1 u.2.1 u.2.2.1 u.2.2.2)
            wm).indices) "uq_scheme") by
    refine hgen ups {} ?_ ?_
    · intro k pr hpr
      simp [indexGet, List.lookup] at hpr
    · intro r hr
      simp at hr
  intro l
  induction l with
  | nil => intro wm ha hb; exact ⟨ha, hb⟩
  | cons u rest ih =>
      intro wm ha hb
      simp only [List.foldl_cons]
      have hpres := update_preserves_index_inv wm u.1 u.2.1 u.2.2.1 u.2.2.2 ha hb
      exact ih _ hpres.1 hpres.2

theorem decodeNumEntries_encode (entries : List (String × ℚ)) :
    decodeNumEntries (encodeNumEntries entries) = some entries := by
  induction entries with
  | nil => rfl
  | cons kv rest ih =>
      simp [encodeNumEntries, decodeNumEntries] at ih ⊢
      exact ih

theorem decodeStrList_encode (entries : List String) :
    decodeStrList (encodeStrList entries) = some entries := by
  induction entries with
  | nil => rfl
  | cons s rest ih =>
      simp [encodeStrList, decodeStrList] at ih ⊢
      exact ih

theorem configuration_roundtrip (c : Configuration) :
    Configuration.from_dict c.to_dict = some c := by
  cases c
  simp [Configuration.to_dict, Configuration.from_dict, PyVal.asDict,
    PyVal.asStr, List.lookup]

theorem metrics_roundtrip (m : Metrics) :
    Metrics.from_dict m.to_dict = some m := by
  cases m with
  | mk psnr coverage latency calibration_error other_metrics =>
      cases calibration_error <;>
        simp [Metrics.to_dict, Metrics.from_dict, PyVal.asDict, PyVal.asNum,
          PyVal.asOptNum, List.lookup, decodeNumEntries_encode]

theorem artifacts_roundtrip (a : Artifacts) :
    Artifacts.from_dict a.to_dict = some a := by
  cases a
  simp [Artifacts.to_dict, Artifacts.from_dict, PyVal.asDict, PyVal.asStr,
    PyVal.asList, List.lookup, decodeStrList_encode]

/-- C9: the structured-data export and import of an ExperimentRecord are
mutually inverse: from_dict of to_dict returns the original record
field-for-field, nested mappings preserved. -/
theorem experiment_record_roundtrip (r : ExperimentRecord) :
    ExperimentRecord.from_dict r.to_dict = some r := by
  cases r
  simp [ExperimentRecord.to_dict, ExperimentRecord.from_dict, PyVal.asDict,
    PyVal.asStr, List.lookup, configuration_roundtrip, metrics_roundtrip,
    artifacts_roundtrip]

/-- C7 counterexample: with no recon_family key in the proposal and a
design space whose first declared family is Baseline-CNN but which also
declares CIAS-Core, project_to_design_space returns the hard-coded
default CIAS-Core, not the first declared family. -/
theorem project_default_counterexample :
    ((Planner.project_to_design_space {}
        [("recon_families", ["Baseline-CNN", "CIAS-Core"])]).map
      fun c => c.recon_family) = some "CIAS-Core" ∧
    ("CIAS-Core" : String) ≠ "Baseline-CNN" :=
  ⟨rfl, by decide⟩

/-- C7 (amended): with a non-empty declared family list,
project_to_design_space keeps a proposed tag that is declared, replaces a
proposed tag that is not declared by the first declared family, and for a
proposal without the key substitutes the literal default CIAS-Core,
falling back to the first declared family only when CIAS-Core itself is
not declared; a missing uq_scheme key yields None and missing parameter
mappings yield empty mappings. -/
theorem project_to_design_space_spec (p : Proposal) (ds : DesignSpace)
    (fams : List String) (hl : List.lookup "recon_families" ds = some fams)
    (hne : fams ≠ []) :
    ∃ cfg, Planner.project_to_design_space p ds = some cfg ∧
      (∀ t, p.recon_family = some t → fams.contains t = true →
        cfg.recon_family = t) ∧
      (∀ t, p.recon_family = some t → fams.contains t = false →
        cfg.recon_family = fams.headD "") ∧
      (p.recon_family = none → fams.contains "CIAS-Core" = true →
        cfg.recon_family = "CIAS-Core") ∧
      (p.recon_family = none → fams.contains "CIAS-Core" = false →
        cfg.recon_family = fams.headD "") ∧
      cfg.uq_scheme = p.uq_scheme.getD "None" ∧
      cfg.forward_config = p.forward_config.getD [] ∧
      cfg.recon_params = p.recon_params.getD [] ∧
      cfg.uq_params = p.uq_params.getD [] ∧
      cfg.train_config = p.train_config.getD [] := by
  rcases fams with _ | ⟨f0, rest⟩
  · exact absurd rfl hne
  unfold Planner.project_to_design_space
  rw [hl]
  simp only [Option.getD_some]
  by_cases hc : (f0 :: rest).contains (p.recon_family.getD "CIAS-Core")
  · rw [if_pos hc]
    refine ⟨_, rfl, ?_, ?_, ?_, ?_, rfl, rfl, rfl, rfl, rfl⟩
    · intro t ht _
      rw [ht]
      rfl
    · intro t ht hf
      rw [ht] at hc
      simp only [Option.getD_some] at hc
      rw [hc] at hf
      cases hf
    · intro ht _
      rw [ht]
      rfl
    · intro ht hf
      rw [ht] at hc
      simp only [Option.getD_none] at hc
      rw [hc] at hf
      cases hf
  · rw [if_neg hc]
    simp only [Option.some_bind, List.head?_cons, Option.map_some]
    refine ⟨_, rfl, ?_, ?_, ?_, ?_, rfl, rfl, rfl, rfl, rfl⟩
    · intro t ht hf
      rw [ht] at hc
      simp only [Option.getD_some] at hc
      exact absurd hf hc
    · intro t ht _
      rfl
    · intro ht hf
      rw [ht] at hc
      simp only [Option.getD_none] at hc
      exact absurd hf hc
    · intro _ _
      rfl

/-- C7 witness: the amended statement applied to the empty proposal and
the standard design space, whose declared family list is non-empty. -/
theorem project_to_design_space_spec_witness :
    (List.lookup "recon_families" dsStd =
        some ["CIAS-Core", "CIAS-Core-ELP", "Baseline-CNN"] ∧
      (["CIAS-Core", "CIAS-Core-ELP", "Baseline-CNN"] : List String) ≠ []) ∧
    (∃ cfg, Planner.project_to_design_space {} dsStd = some cfg ∧
      (∀ t, Proposal.recon_family {} = some t →
        (["CIAS-Core", "CIAS-Core-ELP", "Baseline-CNN"] : List String).contains
          t = true → cfg.recon_family = t) ∧
      (∀ t, Proposal.recon_family {} = some t →
        (["CIAS-Core", "CIAS-Core-ELP", "Baseline-CNN"] : List String).contains
          t = false →
        cfg.recon_family =
          (["CIAS-Core", "CIAS-Core-ELP", "Baseline-CNN"] : List String).headD
            "") ∧
      (Proposal.recon_family {} = none →
        (["CIAS-Core", "CIAS-Core-ELP", "Baseline-CNN"] : List String).contains
          "CIAS-Core" = true → cfg.recon_family = "CIAS-Core") ∧
      (Proposal.recon_family {} = none →
        (["CIAS-Core", "CIAS-Core-ELP", "Baseline-CNN"] : List String).contains
          "CIAS-Core" = false →
        cfg.recon_family =
          (["CIAS-Core", "CIAS-Core-ELP", "Baseline-CNN"] : List String).headD
            "") ∧
      cfg.uq_scheme = (Proposal.uq_scheme {}).getD "None" ∧
      cfg.forward_config = (Proposal.forward_config {}).getD [] ∧
      cfg.recon_params = (Proposal.recon_params {}).getD [] ∧
      cfg.uq_params = (Proposal.uq_params {}).getD [] ∧
      cfg.train_config = (Proposal.train_config {}).getD []) :=
  ⟨⟨rfl, by decide⟩,
    project_to_design_space_spec {} dsStd
      ["CIAS-Core", "CIAS-Core-ELP", "Baseline-CNN"] rfl (by decide)⟩

theorem update_experiments_length (wm : WorldModel) (newId : String)
    (c : Configuration) (m : Metrics) (a : Artifacts) :
    (WorldModelManager.update wm newId c m a).experiments.length =
      wm.experiments.length + 1 := by
  simp [WorldModelManager.update]

theorem seedPhase_ok (exec : Exec) (hx : ExecOk exec) :
    ∀ (seeds : List Configuration) (s : LoopState),
      ∃ s2, seedPhase exec seeds s = .ok s2 ∧
        s2.world_model.experiments.length =
          s.world_model.experiments.length + seeds.length ∧
        s2.budget_used = s.budget_used ∧
        s2.calls = s.calls + seeds.length := by
  intro seeds
  induction seeds with
  | nil => intro s; exact ⟨s, rfl, by simp, rfl, by simp⟩
  | cons c rest ih =>
      intro s
      rcases hx s.calls c with ⟨⟨m, a⟩, hok⟩
      rcases ih { s with
          world_model :=
            WorldModelManager.update s.world_model (idOf s.calls) c m a
          calls := s.calls + 1 } with ⟨s2, heq, hlen, hbud, hcalls⟩
      dsimp only at hlen hcalls
      rw [update_experiments_length] at hlen
      refine ⟨s2, ?_, ?_, hbud, ?_⟩
      · simp only [seedPhase, hok]
        exact heq
      · simp only [List.length_cons]
        omega
      · simp only [List.length_cons]
        omega

theorem execConfigs_budget_mono (exec : Exec) (bm : Nat) :
    ∀ (configs : List Configuration) (s s2 : LoopState),
      execConfigs exec bm configs s = .ok s2 →
      s.budget_used ≤ s2.budget_used := by
  intro configs
  induction configs with
  | nil =>
      intro s s2 h
      simp only [execConfigs] at h
      cases h
      exact le_refl _
  | cons c rest ih =>
      intro s s2 h
      simp only [execConfigs] at h
      cases hx : exec s.calls c with
      | error msg => rw [hx] at h; cases h
      | ok ma =>
          rcases ma with ⟨m, a⟩
          rw [hx] at h
          simp only at h
          by_cases hb : bm ≤ s.budget_used + 1
          · rw [if_pos hb] at h
            cases h
            simp
          · rw [if_neg hb] at h
            have := ih _ _ h
            simp at this
            omega

theorem execConfigs_ok (exec : Exec) (hx : ExecOk exec) (bm : Nat) :
    ∀ (configs : List Configuration) (s : LoopState),
      s.budget_used < bm →
      ∃ s2, execConfigs exec bm configs s = .ok s2 ∧
        s2.budget_used = min (s.budget_used + configs.length) bm ∧
        s2.world_model.experiments.length =
          s.world_model.experiments.length +
            (s2.budget_used - s.budget_used) := by
  intro configs
  induction configs with
  | nil =>
      intro s hs
      refine ⟨s, rfl, ?_, by omega⟩
      simp only [List.length_nil, Nat.add_zero]
      omega
  | cons c rest ih =>
      intro s hs
      rcases hx s.calls c with ⟨⟨m, a⟩, hok⟩
      by_cases hb : bm ≤ s.budget_used + 1
      · refine ⟨{ s with
            world_model :=
              WorldModelManager.update s.world_model (idOf s.calls) c m a
            budget_used := s.budget_used + 1
            calls := s.calls + 1 }, ?_, ?_, ?_⟩
        · simp only [execConfigs, hok]
          rw [if_pos (by simpa using hb)]
        · dsimp only
          simp only [List.length_cons]
          omega
        · dsimp only
          rw [update_experiments_length]
          omega
      · rcases ih { s with
            world_model :=
              WorldModelManager.update s.world_model (idOf s.calls) c m a
            budget_used := s.budget_used + 1
            calls := s.calls + 1 } (by simpa using Nat.lt_of_not_le hb)
          with ⟨s2, heq, hbud, hlen⟩
        refine ⟨s2, ?_, ?_, ?_⟩
        · simp only [execConfigs, hok]
          rw [if_neg (by simpa using hb)]
          exact heq
        · simp only at hbud
          simp only [List.length_cons]
          omega
        · simp only [update_experiments_length] at hlen
          simp only at hbud
          have hmono := execConfigs_budget_mono exec bm rest _ _ heq
          simp only at hmono
          omega

theorem projectProposals_length (ds : DesignSpace) :
    ∀ (ps : List Proposal) (cs : List Configuration),
      projectProposals ps ds = .ok cs → cs.length = ps.length := by
  intro ps
  induction ps with
  | nil =>
      intro cs h
      simp only [projectProposals] at h
      cases h
      rfl
  | cons p rest ih =>
      intro cs h
      simp only [projectProposals] at h
      cases hp : Planner.project_to_design_space p ds with
      | none => rw [hp] at h; cases h
      | some c =>
          rw [hp] at h
          cases hr : projectProposals rest ds with
          | error e => rw [hr] at h; cases h
          | ok cs2 =>
              rw [hr] at h
              simp only [Except.map] at h
              cases h
              simp only [List.length_cons, ih cs2 hr]

theorem planner_step_length (summary : Summary) (ds : DesignSpace)
    (br : Nat) (cs : List Configuration)
    (h : Planner.planner_step summary ds br = .ok cs) :
    cs.length = min 3 br := by
  simp only [Planner.planner_step] at h
  cases hp : projectProposals
      (Planner.llm_generate_configs
        (Planner.build_planner_prompt
          (Planner.identify_underexplored_regions summary)
          summary.frontiers summary.constraints br)) ds with
  | error e => rw [hp] at h; cases h
  | ok projected =>
      rw [hp] at h
      simp only [Except.map] at h
      have h3 : projected.length = 3 := projectProposals_length ds _ _ hp
      have hfil : projected.filter
          (fun c => Planner.is_valid_config c summary.constraints) =
            projected := by
        simp [Planner.is_valid_config]
      rw [hfil] at h
      by_cases hbr : br < projected.length
      · rw [if_pos hbr] at h
        cases h
        simp only [List.length_take]
        omega
      · rw [if_neg hbr] at h
        cases h
        omega

theorem discoveryRound_shape (exec : Exec) (planner : PlannerFun)
    (ds : DesignSpace) (bm : Nat) (s : LoopState) :
    discoveryRound exec planner ds bm s =
      match (Planner.summarize_world_model s.world_model).avg_psnr with
      | none =>
          .error ("KeyError: avg_psnr", { s with iteration := s.iteration + 1 })
      | some _ =>
          match planner (Planner.summarize_world_model s.world_model) ds
              (bm - s.budget_used) with
          | .error msg => .error (msg, { s with iteration := s.iteration + 1 })
          | .ok new_configs =>
              match execConfigs exec bm new_configs
                  { s with iteration := s.iteration + 1 } with
              | .error e => .error e
              | .ok s2 =>
                  .ok { s2 with
                    trends_ctx :=
                      (AnalysisAgent.analysis_step s2.world_model).2
                    pareto_size_ctx :=
                      (AnalysisAgent.analysis_step s2.world_model).1.card } :=
  rfl

theorem discoveryRound_ok_progress (exec : Exec) (ds : DesignSpace)
    (bm : Nat) (s s2 : LoopState) (hs : s.budget_used < bm)
    (h : discoveryRound exec Planner.planner_step ds bm s = .ok s2) :
    s.budget_used < s2.budget_used := by
  rw [discoveryRound_shape] at h
  cases havg : (Planner.summarize_world_model s.world_model).avg_psnr with
  | none => rw [havg] at h; cases h
  | some q =>
      rw [havg] at h
      dsimp only at h
      cases hpl : Planner.planner_step (Planner.summarize_world_model
          s.world_model) ds (bm - s.budget_used) with
      | error msg => rw [hpl] at h; cases h
      | ok new_configs =>
          rw [hpl] at h
          dsimp only at h
          have hlen : new_configs.length = min 3 (bm - s.budget_used) :=
            planner_step_length _ _ _ _ hpl
          cases new_configs with
          | nil => simp at hlen; omega
          | cons c rest =>
              cases hec : execConfigs exec bm (c :: rest)
                  { s with iteration := s.iteration + 1 } with
              | error e => rw [hec] at h; cases h
              | ok s3 =>
                  rw [hec] at h
                  dsimp only at h
                  cases h
                  simp only [execConfigs] at hec
                  cases hx : exec s.calls c with
                  | error msg =>
                      rw [hx] at hec
                      dsimp only at hec
                      cases hec
                  | ok ma =>
                      rcases ma with ⟨m, a⟩
                      rw [hx] at hec
                      dsimp only at hec ⊢
                      by_cases hb : bm ≤ s.budget_used + 1
                      · rw [if_pos hb] at hec
                        cases hec
                        dsimp only
                        omega
                      · rw [if_neg hb] at hec
                        have := execConfigs_budget_mono exec bm rest _ _ hec
                        dsimp only at this
                        omega

theorem discoveryLoop_no_fuelOut (exec : Exec) (ds : DesignSpace)
    (bm : Nat) :
    ∀ (fuel : Nat) (s : LoopState), bm ≤ s.budget_used + fuel →
      (discoveryLoop exec Planner.planner_step ds bm fuel s).isFuelOut
        = false := by
  intro fuel
  induction fuel with
  | zero =>
      intro s h
      rw [discoveryLoop, if_pos (by omega)]
      rfl
  | succ fuel ih =>
      intro s h
      rw [discoveryLoop]
      by_cases hb : bm ≤ s.budget_used
      · rw [if_pos hb]; rfl
      · rw [if_neg hb]
        cases hr : discoveryRound exec Planner.planner_step ds bm s with
        | error e => rcases e with ⟨msg, s2⟩; rfl
        | ok s2 =>
            have hprog := discoveryRound_ok_progress exec ds bm s s2
              (by omega) hr
            exact ih s2 (by omega)

/-- C4 (amended): AIScientistLoop.run with the concrete Planner.planner_step
always terminates regardless of the executor outcome: the fuelled
embedding of its while loop never exhausts its fuel, because the planner
proposes at least one configuration whenever budget remains, so every
successful round strictly increases budget_used and every raised
exception ends the loop. -/
theorem run_terminates (exec : Exec) (ds : DesignSpace)
    (seeds : List Configuration) (bm : Nat) :
    (runE exec ds seeds bm).isFuelOut = false := by
  unfold runE
  cases hs : seedPhase exec seeds initState with
  | error e => rcases e with ⟨msg, s⟩; rfl
  | ok s => exact discoveryLoop_no_fuelOut exec ds bm (bm + 1) _ (by omega)

theorem emptyPlanner_round (exec : Exec) (ds : DesignSpace) (bm : Nat)
    (s : LoopState) (e : ExperimentRecord) (rest : List ExperimentRecord)
    (hwm : s.world_model.experiments = e :: rest) :
    discoveryRound exec emptyPlanner ds bm s =
      .ok { s with
        iteration := s.iteration + 1
        trends_ctx := (AnalysisAgent.analysis_step s.world_model).2
        pareto_size_ctx :=
          (AnalysisAgent.analysis_step s.world_model).1.card } := by
  rw [discoveryRound_shape]
  have havg : (Planner.summarize_world_model s.world_model).avg_psnr =
      some (((e :: rest).map fun x => x.metrics.psnr).sum /
        (e :: rest).length) := by
    unfold Planner.summarize_world_model
    rw [hwm]
  rw [havg]
  dsimp only [emptyPlanner]
  rfl

theorem emptyPlanner_loop_stuck (exec : Exec) (ds : DesignSpace) (bm : Nat) :
    ∀ (fuel : Nat) (s : LoopState) (e : ExperimentRecord)
      (rest : List ExperimentRecord),
      s.world_model.experiments = e :: rest → s.budget_used < bm →
      (discoveryLoop exec emptyPlanner ds bm fuel s).isFuelOut = true := by
  intro fuel
  induction fuel with
  | zero =>
      intro s e rest hwm hb
      rw [discoveryLoop, if_neg (by omega)]
      rfl
  | succ fuel ih =>
      intro s e rest hwm hb
      rw [discoveryLoop, if_neg (by omega)]
      rw [emptyPlanner_round exec ds bm s e rest hwm]
      exact ih _ e rest hwm hb

/-- C4 counterexample: the discovery loop contains no escape for
zero-proposal rounds; against a planner collaborator that returns zero
configurations each round, the while loop runs forever (every finite fuel
is exhausted) from a state with one executed record and budget remaining,
instead of exiting after a bounded number of consecutive empty rounds. -/
theorem discovery_loop_empty_planner_diverges : discoveryLoopStuck := by
  intro fuel
  exact emptyPlanner_loop_stuck stubExec dsStd 5 fuel stuckState recA []
    rfl (by decide)

/-- C10: with an empty seed list and a positive budget, run raises
KeyError in its first discovery iteration: summarize_world_model on the
empty world model returns a summary without the avg_psnr key, which the
loop reads unconditionally; the run aborts with no experiment executed. -/
theorem run_empty_seeds_keyerror (exec : Exec) (ds : DesignSpace)
    (bm : Nat) (h : 0 < bm) :
    runE exec ds [] bm =
      LoopResult.failed "KeyError: avg_psnr"
        { world_model := {}, budget_used := 0, iteration := 1,
          trends_ctx := [], pareto_size_ctx := 0, calls := 0 } := by
  show discoveryLoop exec Planner.planner_step ds bm (bm + 1)
      { world_model := {}, budget_used := 0, iteration := 0,
        trends_ctx := [], pareto_size_ctx := 0, calls := 0 } = _
  rw [discoveryLoop, if_neg (by omega : ¬ bm ≤ (0 : Nat))]
  rw [show discoveryRound exec Planner.planner_step ds bm
      { world_model := { experiments := [], indices := [] }, budget_used := 0,
        iteration := 0, trends_ctx := [], pareto_size_ctx := 0, calls := 0 } =
      Except.error ("KeyError: avg_psnr",
        { world_model := { experiments := [], indices := [] },
          budget_used := 0, iteration := 1, trends_ctx := [],
          pareto_size_ctx := 0, calls := 0 }) from rfl]

/-- C10 witness: the KeyError raise evaluated at budget 1 with the stub
executor and the standard design space. -/
theorem run_empty_seeds_keyerror_witness :
    0 < 1 ∧
      runE stubExec dsStd [] 1 =
        LoopResult.failed "KeyError: avg_psnr"
          { world_model := {}, budget_used := 0, iteration := 1,
            trends_ctx := [], pareto_size_ctx := 0, calls := 0 } :=
  ⟨by decide, run_empty_seeds_keyerror stubExec dsStd 1 (by decide)⟩

/-- C3 (amended): the discovery round's inner loop has no exception
handler: when Executor.run_campaign raises at some configuration, the
raise propagates out of the loop (aborting the run) with exactly the n
configurations that succeeded before the failure appended and counted
(one budget unit and one record each); the failing configuration is not
appended, consumes no budget, and the configurations after it are never
executed (exactly n + 1 executor calls are made). -/
theorem executor_failure_aborts_round (exec : Exec) (bm : Nat) :
    ∀ (configs : List Configuration) (s : LoopState) (msg : String)
      (sF : LoopState),
      execConfigs exec bm configs s = .error (msg, sF) →
      ∃ n, n < configs.length ∧
        sF.calls = s.calls + n + 1 ∧
        sF.budget_used = s.budget_used + n ∧
        sF.world_model.experiments.length =
          s.world_model.experiments.length + n := by
  intro configs
  induction configs with
  | nil =>
      intro s msg sF h
      simp only [execConfigs] at h
      cases h
  | cons c rest ih =>
      intro s msg sF h
      simp only [execConfigs] at h
      cases hx : exec s.calls c with
      | error m2 =>
          rw [hx] at h
          dsimp only at h
          cases h
          refine ⟨0, by simp, ?_, ?_, ?_⟩ <;> dsimp only <;> omega
      | ok ma =>
          rcases ma with ⟨m, a⟩
          rw [hx] at h
          dsimp only at h
          by_cases hb : bm ≤ s.budget_used + 1
          · rw [if_pos hb] at h
            cases h
          · rw [if_neg hb] at h
            rcases ih _ msg sF h with ⟨n, hn, hc, hb2, hl⟩
            dsimp only at hc hb2 hl
            rw [update_experiments_length] at hl
            exact ⟨n + 1, by simp only [List.length_cons]; omega,
              by omega, by omega, by omega⟩

/-- C3 witness: the amended statement evaluated on a three-configuration
round whose executor raises at its second call from the initial state. -/
theorem executor_failure_aborts_round_witness :
    ∃ msg sF,
      execConfigs failExec2 4 [cfgA, cfgB, cfgA] initState =
        Except.error (msg, sF) ∧
      ∃ n, n < ([cfgA, cfgB, cfgA] : List Configuration).length ∧
        sF.calls = initState.calls + n + 1 ∧
        sF.budget_used = initState.budget_used + n ∧
        sF.world_model.experiments.length =
          initState.world_model.experiments.length + n :=
  ⟨"boom", _, rfl,
    executor_failure_aborts_round failExec2 4 [cfgA, cfgB, cfgA] initState
      "boom" _ rfl⟩

/-- C3 counterexample: running the loop with one seed, budget 4 and an
executor that raises on its third invocation (the second configuration
of the first discovery round): the run aborts as failed with only the
seed record and the first discovery record in the world model, two budget
units used and three executor calls made; the loop does not continue with
the remaining configuration of the round. -/
theorem executor_failure_aborts_run_counterexample :
    (runE failExec2 dsStd [cfgA] 4).isFailed = true ∧
    (runE failExec2 dsStd [cfgA] 4).state.world_model.experiments.length
      = 2 ∧
    (runE failExec2 dsStd [cfgA] 4).state.budget_used = 2 ∧
    (runE failExec2 dsStd [cfgA] 4).state.calls = 3 :=
  ⟨rfl, rfl, rfl, rfl⟩

theorem discoveryRound_inv_error (exec : Exec) (ds : DesignSpace)
    (bm : Nat) (s : LoopState) (msg : String) (s2 : LoopState)
    (hx : ExecOk exec) (hb : s.budget_used < bm)
    (h : discoveryRound exec Planner.planner_step ds bm s =
      .error (msg, s2)) :
    s2.budget_used = s.budget_used ∧
    s2.world_model.experiments.length =
      s.world_model.experiments.length := by
  rw [discoveryRound_shape] at h
  cases havg : (Planner.summarize_world_model s.world_model).avg_psnr with
  | none =>
      rw [havg] at h
      dsimp only at h
      cases h
      exact ⟨rfl, rfl⟩
  | some q =>
      rw [havg] at h
      dsimp only at h
      cases hpl : Planner.planner_step (Planner.summarize_world_model
          s.world_model) ds (bm - s.budget_used) with
      | error m =>
          rw [hpl] at h
          dsimp only at h
          cases h
          exact ⟨rfl, rfl⟩
      | ok cfgs =>
          rw [hpl] at h
          dsimp only at h
          rcases execConfigs_ok exec hx bm cfgs
            { s with iteration := s.iteration + 1 } (by dsimp only; omega)
            with ⟨s3, heq, _, _⟩
          rw [heq] at h
          dsimp only at h
          cases h

theorem discoveryRound_inv_ok (exec : Exec) (ds : DesignSpace)
    (bm : Nat) (s s2 : LoopState) (hx : ExecOk exec)
    (hb : s.budget_used < bm)
    (hinv : s.world_model.experiments.length = s.budget_used)
    (h : discoveryRound exec Planner.planner_step ds bm s = .ok s2) :
    s2.world_model.experiments.length = s2.budget_used ∧
    s2.budget_used ≤ bm := by
  rw [discoveryRound_shape] at h
  cases havg : (Planner.summarize_world_model s.world_model).avg_psnr with
  | none => rw [havg] at h; dsimp only at h; cases h
  | some q =>
      rw [havg] at h
      dsimp only at h
      cases hpl : Planner.planner_step (Planner.summarize_world_model
          s.world_model) ds (bm - s.budget_used) with
      | error m => rw [hpl] at h; dsimp only at h; cases h
      | ok cfgs =>
          rw [hpl] at h
          dsimp only at h
          rcases execConfigs_ok exec hx bm cfgs
            { s with iteration := s.iteration + 1 } (by dsimp only; omega)
            with ⟨s3, heq, hbud, hlen⟩
          rw [heq] at h
          dsimp only at h
          cases h
          dsimp only at hbud hlen ⊢
          omega

theorem discoveryLoop_len_le (exec : Exec) (ds : DesignSpace) (bm : Nat)
    (hx : ExecOk exec) :
    ∀ (fuel : Nat) (s : LoopState),
      s.world_model.experiments.length = s.budget_used →
      s.budget_used ≤ bm →
      (discoveryLoop exec Planner.planner_step ds bm fuel
        s).state.world_model.experiments.length ≤ bm := by
  intro fuel
  induction fuel with
  | zero =>
      intro s hinv hb
      rw [discoveryLoop]
      by_cases h : bm ≤ s.budget_used
      · rw [if_pos h]
        dsimp only [LoopResult.state]
        omega
      · rw [if_neg h]
        dsimp only [LoopResult.state]
        omega
  | succ fuel ih =>
      intro s hinv hb
      rw [discoveryLoop]
      by_cases h : bm ≤ s.budget_used
      · rw [if_pos h]
        dsimp only [LoopResult.state]
        omega
      · rw [if_neg h]
        cases hr : discoveryRound exec Planner.planner_step ds bm s with
        | error e =>
            rcases e with ⟨msg, s2⟩
            have hiv := discoveryRound_inv_error exec ds bm s msg s2 hx
              (by omega) hr
            dsimp only [LoopResult.state]
            omega
        | ok s2 =>
            have hiv := discoveryRound_inv_ok exec ds bm s s2 hx
              (by omega) hinv hr
            exact ih s2 hiv.1 hiv.2

/-- C2: with the never-raising executor behaviour of the source, the seed
phase appends exactly one record per seed configuration (budget is not
consulted, so this holds even when the seed count exceeds the budget);
when the seed count is at most budget_max the whole run holds at most
budget_max records, so the discovery phase appends at most
budget_max - seed_count; and the inner per-round loop stops appending as
soon as budget_used reaches budget_max, capping its final budget at
min (budget_used + round size) budget_max and leaving the remaining
proposals of the round unexecuted. -/
theorem budget_accounting (exec : Exec) (ds : DesignSpace)
    (seeds : List Configuration) (bm : Nat) (hx : ExecOk exec) :
    (∃ s2, seedPhase exec seeds initState = .ok s2 ∧
      s2.world_model.experiments.length = seeds.length ∧
      s2.budget_used = 0) ∧
    (seeds.length ≤ bm →
      (runE exec ds seeds bm).state.world_model.experiments.length ≤ bm) ∧
    (∀ (configs : List Configuration) (s : LoopState),
      s.budget_used < bm →
      ∃ s2, execConfigs exec bm configs s = .ok s2 ∧
        s2.budget_used = min (s.budget_used + configs.length) bm) := by
  refine ⟨?_, ?_, ?_⟩
  · rcases seedPhase_ok exec hx seeds initState with ⟨s2, heq, hlen, hbud, _⟩
    refine ⟨s2, heq, ?_, ?_⟩
    · rw [hlen]
      simp [initState]
    · rw [hbud]
      rfl
  · intro hN
    unfold runE
    rcases seedPhase_ok exec hx seeds initState with ⟨s2, heq, hlen, hbud, _⟩
    rw [heq]
    dsimp only
    refine discoveryLoop_len_le exec ds bm hx (bm + 1) _ ?_ ?_
    · dsimp only
      rw [hlen]
      simp [initState]
    · dsimp only
      exact hN
  · intro configs s hb
    rcases execConfigs_ok exec hx bm configs s hb with ⟨s2, heq, hbud, _⟩
    exact ⟨s2, heq, hbud⟩

/-- C2 witness: the budget accounting applied to the stub executor (which
always succeeds, like the source executor), the standard design space,
a three-seed list and budget 5. -/
theorem budget_accounting_witness :
    ExecOk stubExec ∧
    ((∃ s2, seedPhase stubExec [cfgA, cfgB, cfgA] initState = .ok s2 ∧
      s2.world_model.experiments.length =
        ([cfgA, cfgB, cfgA] : List Configuration).length ∧
      s2.budget_used = 0) ∧
    (([cfgA, cfgB, cfgA] : List Configuration).length ≤ 5 →
      (runE stubExec dsStd [cfgA, cfgB, cfgA]
        5).state.world_model.experiments.length ≤ 5) ∧
    (∀ (configs : List Configuration) (s : LoopState),
      s.budget_used < 5 →
      ∃ s2, execConfigs stubExec 5 configs s = .ok s2 ∧
        s2.budget_used = min (s.budget_used + configs.length) 5)) :=
  ⟨fun _ _ => ⟨(mA, artA), rfl⟩,
    budget_accounting stubExec dsStd [cfgA, cfgB, cfgA] 5
      fun _ _ => ⟨(mA, artA), rfl⟩⟩

theorem dominatesLoopE_eq (metrics1 metrics2 : Metrics) :
    ∀ (objs : List String),
      (∀ o ∈ objs, ∃ q, getattrM metrics1 o = AttrVal.num q) →
      (∀ o ∈ objs, ∃ q, getattrM metrics2 o = AttrVal.num q) →
      ∀ b, dominatesLoopE metrics1 metrics2 objs b =
        .ok ((objs.all fun o =>
            decide (attrQ metrics1 o ≤ attrQ metrics2 o)) &&
          (b || objs.any fun o =>
            decide (attrQ metrics1 o < attrQ metrics2 o))) := by
  intro objs
  induction objs with
  | nil => intro _ _ b; simp [dominatesLoopE]
  | cons o rest ih =>
      intro h1 h2 b
      rcases h1 o (List.mem_cons_self o rest) with ⟨q1, hq1⟩
      rcases h2 o (List.mem_cons_self o rest) with ⟨q2, hq2⟩
      have ha1 : attrQ metrics1 o = q1 := by unfold attrQ; rw [hq1]
      have ha2 : attrQ metrics2 o = q2 := by unfold attrQ; rw [hq2]
      simp only [dominatesLoopE, hq1, hq2, pyLt, List.all_cons, List.any_cons]
      by_cases hlt : q2 < q1
      · rw [if_pos (decide_eq_true hlt)]
        have : ¬ (q1 ≤ q2) := not_le.mpr hlt
        rw [ha1, ha2]
        simp [this]
      · rw [if_neg (by simpa using hlt)]
        rw [ih (fun x hx => h1 x (List.mem_cons_of_mem o hx))
          (fun x hx => h2 x (List.mem_cons_of_mem o hx))]
        have hle : q1 ≤ q2 := not_lt.mp hlt
        rw [ha1, ha2, decide_eq_true hle, Bool.true_and]
        cases b <;> cases hd : decide (q1 < q2) <;> simp [Bool.or_assoc]

theorem dominatesLoopE_false (metrics1 metrics2 : Metrics)
    (objs : List String)
    (h1 : ∀ o ∈ objs, ∃ q, getattrM metrics1 o = AttrVal.num q)
    (h2 : ∀ o ∈ objs, ∃ q, getattrM metrics2 o = AttrVal.num q) :
    dominatesLoopE metrics1 metrics2 objs false =
      .ok (attrDominatesB objs metrics2 metrics1) := by
  rw [dominatesLoopE_eq metrics1 metrics2 objs h1 h2 false]
  unfold attrDominatesB
  rw [Bool.false_or]

theorem isDominatedE_eq (objs : List String) (exp1 : ExperimentRecord)
    (h1 : ∀ o ∈ objs, ∃ q, getattrM exp1.metrics o = AttrVal.num q) :
    ∀ (l : List ExperimentRecord),
      (∀ e2 ∈ l, ∀ o ∈ objs, ∃ q, getattrM e2.metrics o = AttrVal.num q) →
      isDominatedE l objs exp1 =
        .ok (l.any fun exp2 => !(exp1.id == exp2.id) &&
          attrDominatesB objs exp2.metrics exp1.metrics) := by
  intro l
  induction l with
  | nil => intro _; rfl
  | cons exp2 rest ih =>
      intro hl
      have h2 := hl exp2 (List.mem_cons_self exp2 rest)
      have hrest := fun e he => hl e (List.mem_cons_of_mem exp2 he)
      simp only [isDominatedE, List.any_cons]
      by_cases hid : exp1.id = exp2.id
      · rw [if_pos (beq_iff_eq.mpr hid), ih hrest]
        rw [beq_iff_eq.mpr hid]
        simp
      · rw [if_neg (by simpa using hid)]
        rw [dominatesLoopE_false exp1.metrics exp2.metrics objs h1 h2]
        dsimp only
        have hne : (exp1.id == exp2.id) = false := beq_eq_false_iff_ne.mpr hid
        rw [hne]
        cases hD : attrDominatesB objs exp2.metrics exp1.metrics with
        | true =>
            rw [if_pos rfl]
            simp
        | false =>
            rw [if_neg (by simp)]
            rw [ih hrest]
            simp

theorem paretoGoE_eq (exps : List ExperimentRecord) (objs : List String)
    (hnum : ∀ e ∈ exps, ∀ o ∈ objs, ∃ q,
      getattrM e.metrics o = AttrVal.num q) :
    ∀ (l : List ExperimentRecord), (∀ e ∈ l, e ∈ exps) →
      ∀ acc, paretoGoE exps objs l acc =
        .ok (l.foldl (fun pareto_set exp1 =>
          if isDominatedA exps objs exp1 then pareto_set
          else insert exp1.id pareto_set) acc) := by
  intro l
  induction l with
  | nil => intro _ acc; rfl
  | cons e rest ih =>
      intro hsub acc
      have he : e ∈ exps := hsub e (List.mem_cons_self e rest)
      have hd : isDominatedE exps objs e =
          .ok (isDominatedA exps objs e) :=
        isDominatedE_eq objs e (hnum e he) exps hnum
      simp only [paretoGoE, hd, List.foldl_cons]
      have hsubrest := fun x hx => hsub x (List.mem_cons_of_mem e hx)
      cases hD : isDominatedA exps objs e with
      | true =>
          rw [if_pos rfl, if_pos rfl, ih hsubrest acc]
      | false =>
          rw [if_neg (by simp), if_neg (by simp), ih hsubrest _]

theorem compute_pareto_frontE_ok (exps : List ExperimentRecord)
    (objs : List String)
    (hnum : ∀ e ∈ exps, ∀ o ∈ objs, ∃ q,
      getattrM e.metrics o = AttrVal.num q) :
    AnalysisAgent.compute_pareto_frontE exps objs =
      .ok (exps.foldl (fun pareto_set exp1 =>
        if isDominatedA exps objs exp1 then pareto_set
        else insert exp1.id pareto_set) ∅) := by
  unfold AnalysisAgent.compute_pareto_frontE
  exact paretoGoE_eq exps objs hnum exps (fun _ hx => hx) ∅

theorem mem_foldl_insert (p : ExperimentRecord → Bool)
    (l : List ExperimentRecord) (s : Finset String) (x : String) :
    (x ∈ l.foldl
        (fun pareto_set exp1 =>
          if p exp1 then pareto_set else insert exp1.id pareto_set) s) ↔
      x ∈ s ∨ ∃ e ∈ l, e.id = x ∧ p e = false := by
  induction l generalizing s with
  | nil => simp
  | cons e rest ih =>
      simp only [List.foldl_cons]
      by_cases h : p e
      · rw [if_pos h, ih]
        simp only [List.mem_cons]
        constructor
        · rintro (hs | ⟨e2, hm, hx, hnd⟩)
          · exact Or.inl hs
          · exact Or.inr ⟨e2, Or.inr hm, hx, hnd⟩
        · rintro (hs | ⟨e2, hm, hx, hnd⟩)
          · exact Or.inl hs
          · rcases hm with rfl | hm
            · rw [h] at hnd; cases hnd
            · exact Or.inr ⟨e2, hm, hx, hnd⟩
      · rw [if_neg h, ih]
        simp only [Finset.mem_insert, List.mem_cons]
        constructor
        · rintro ((hx | hs) | ⟨e2, hm, hx, hnd⟩)
          · exact Or.inr ⟨e, Or.inl rfl, hx.symm, Bool.eq_false_iff.mpr h⟩
          · exact Or.inl hs
          · exact Or.inr ⟨e2, Or.inr hm, hx, hnd⟩
        · rintro (hs | ⟨e2, hm, hx, hnd⟩)
          · exact Or.inl (Or.inr hs)
          · rcases hm with rfl | hm
            · exact Or.inl (Or.inl hx.symm)
            · exact Or.inr ⟨e2, hm, hx, hnd⟩

theorem isDominatedA_iff (exps : List ExperimentRecord)
    (objs : List String) (e : ExperimentRecord) :
    isDominatedA exps objs e = true ↔
      ∃ e2 ∈ exps, e2.id ≠ e.id ∧ DominatesA objs e2 e := by
  unfold isDominatedA attrDominatesB DominatesA
  simp only [List.any_eq_true, Bool.and_eq_true, Bool.not_eq_eq_eq_not,
    Bool.not_true, beq_eq_false_iff_ne, List.all_eq_true, decide_eq_true_eq]
  constructor
  · rintro ⟨e2, hm, hne, hall, hex⟩
    exact ⟨e2, hm, fun h => hne h.symm, hall, hex⟩
  · rintro ⟨e2, hm, hne, hall, hex⟩
    exact ⟨e2, hm, fun h => hne h.symm, hall, hex⟩

/-- C1 (amended): on an input with pairwise-distinct ids whose records
all read a number on every objective (the float attributes, a set
calibration_error, and any name that is not a Metrics field, which reads
the 0 default), compute_pareto_front returns exactly the ids of the
records not dominated by any other record of the input, the values being
the actual attributes read by getattr; in particular a record whose
objective vector is dominated by another input record is excluded. When
a compared attribute read is not a number (a None calibration_error or
the other_metrics dict), the source raises TypeError instead of
returning a set. -/
theorem pareto_front_exact_numeric (exps : List ExperimentRecord)
    (objs : List String) (hnd : (exps.map fun e => e.id).Nodup)
    (hnum : ∀ e ∈ exps, ∀ o ∈ objs, ∃ q,
      getattrM e.metrics o = AttrVal.num q) :
    ∃ fr, AnalysisAgent.compute_pareto_frontE exps objs = .ok fr ∧
      (∀ x, x ∈ fr ↔ ∃ e ∈ exps, e.id = x ∧
        ∀ e2 ∈ exps, e2.id ≠ e.id → ¬ DominatesA objs e2 e) ∧
      (∀ A ∈ exps, ∀ B ∈ exps, DominatesA objs A B → B.id ∉ fr) := by
  refine ⟨_, compute_pareto_frontE_ok exps objs hnum, ?_, ?_⟩
  · intro x
    rw [mem_foldl_insert]
    simp only [Finset.not_mem_empty, false_or]
    constructor
    · rintro ⟨e, hm, hx, hnd2⟩
      refine ⟨e, hm, hx, fun e2 hm2 hne hd => ?_⟩
      have : isDominatedA exps objs e = true :=
        (isDominatedA_iff exps objs e).mpr ⟨e2, hm2, hne, hd⟩
      rw [this] at hnd2; cases hnd2
    · rintro ⟨e, hm, hx, hnot⟩
      refine ⟨e, hm, hx, ?_⟩
      cases hv : isDominatedA exps objs e with
      | false => rfl
      | true =>
          rcases (isDominatedA_iff exps objs e).mp hv with ⟨e2, hm2, hne, hd⟩
          exact absurd hd (hnot e2 hm2 hne)
  · intro A hA B hB hd hmem
    rw [mem_foldl_insert] at hmem
    simp only [Finset.not_mem_empty, false_or] at hmem
    rcases hmem with ⟨e, he, hid, hnd2⟩
    have heB : e = B := List.inj_on_of_nodup_map hnd he hB hid
    subst heB
    have hAB : A ≠ e := by
      rintro rfl
      rcases hd with ⟨_, o, _, hlt⟩
      exact absurd hlt (lt_irrefl _)
    have hidne : A.id ≠ e.id := fun h =>
      hAB (List.inj_on_of_nodup_map hnd hA he h)
    have : isDominatedA exps objs e = true :=
      (isDominatedA_iff exps objs e).mpr ⟨A, hA, hidne, hd⟩
    rw [this] at hnd2; cases hnd2

/-- C1 witness: the amended statement on two records with distinct ids
and set calibration errors 1/2 and 1/5 under the single objective
calibration_error, where every attribute read is numeric (the record
with the larger error dominates on this maximized objective). -/
theorem pareto_front_exact_numeric_witness :
    (([recC, recD].map fun e => e.id).Nodup ∧
      (∀ e ∈ [recC, recD], ∀ o ∈ ["calibration_error"], ∃ q,
        getattrM e.metrics o = AttrVal.num q)) ∧
    (∃ fr, AnalysisAgent.compute_pareto_frontE [recC, recD]
        ["calibration_error"] = .ok fr ∧
      (∀ x, x ∈ fr ↔ ∃ e ∈ [recC, recD], e.id = x ∧
        ∀ e2 ∈ [recC, recD], e2.id ≠ e.id →
          ¬ DominatesA ["calibration_error"] e2 e) ∧
      (∀ A ∈ [recC, recD], ∀ B ∈ [recC, recD],
        DominatesA ["calibration_error"] A B → B.id ∉ fr)) :=
  ⟨⟨by decide, by
      intro e he o ho
      rw [List.mem_singleton] at ho
      subst ho
      rcases List.mem_cons.mp he with rfl | he2
      · exact ⟨1/2, rfl⟩
      · rw [List.mem_singleton] at he2
        subst he2
        exact ⟨1/5, rfl⟩⟩,
    pareto_front_exact_numeric [recC, recD] ["calibration_error"]
      (by decide)
      (by
        intro e he o ho
        rw [List.mem_singleton] at ho
        subst ho
        rcases List.mem_cons.mp he with rfl | he2
        · exact ⟨1/2, rfl⟩
        · rw [List.mem_singleton] at he2
          subst he2
          exact ⟨1/5, rfl⟩)⟩

/-- C1 counterexample: on the objective list [other_metrics] — an
always-present attribute that getattr reads as a dict — with two
distinct-id records, the source raises TypeError at the first comparison
instead of returning the set of ids of the non-dominated records. -/
theorem pareto_front_typeerror_counterexample :
    recA.id ≠ recB.id ∧
    AnalysisAgent.compute_pareto_frontE [recA, recB] ["other_metrics"] =
      Except.error "TypeError" :=
  ⟨by decide, rfl⟩

theorem attrDominatesB_agree (b a : Metrics) :
    attrDominatesB ["psnr", "coverage"] b a =
      dominatesB b a ["psnr", "coverage"] := by
  unfold dominatesB
  rw [dominatesLoop_eq]
  rfl

theorem isDominatedA_agree (exps : List ExperimentRecord)
    (e : ExperimentRecord) :
    isDominatedA exps ["psnr", "coverage"] e =
      isDominated exps ["psnr", "coverage"] e := by
  unfold isDominatedA isDominated
  congr 1
  funext e2
  rw [attrDominatesB_agree]

/-- On the psnr/coverage objectives that analysis_step passes, the full
dynamic-semantics embedding never raises and agrees with the total
embedding used by the analysis theorems. -/
theorem compute_pareto_frontE_agrees (exps : List ExperimentRecord) :
    AnalysisAgent.compute_pareto_frontE exps ["psnr", "coverage"] =
      Except.ok
        (AnalysisAgent.compute_pareto_front exps ["psnr", "coverage"]) := by
  have hnum : ∀ e ∈ exps, ∀ o ∈ ["psnr", "coverage"], ∃ q,
      getattrM e.metrics o = AttrVal.num q := by
    intro e he o ho
    rcases List.mem_cons.mp ho with rfl | ho2
    · exact ⟨e.metrics.psnr, rfl⟩
    · rw [List.mem_singleton] at ho2
      subst ho2
      exact ⟨e.metrics.coverage, rfl⟩
  rw [compute_pareto_frontE_ok exps ["psnr", "coverage"] hnum]
  unfold AnalysisAgent.compute_pareto_front
  have hfun : (fun (pareto_set : Finset String) (exp1 : ExperimentRecord) =>
      if isDominatedA exps ["psnr", "coverage"] exp1 then pareto_set
      else insert exp1.id pareto_set) =
    fun (pareto_set : Finset String) (exp1 : ExperimentRecord) =>
      if isDominated exps ["psnr", "coverage"] exp1 then pareto_set
      else insert exp1.id pareto_set := by
    funext pareto_set exp1
    rw [isDominatedA_agree]
  rw [hfun]
